import Mathlib

/-!
# Verification of the openapi-ts core engine

A shallow embedding, in Lean 4, of the parts of the `openapi-ts` repository
that the specification's claims are about:

* the zod schema emitter (`schemaToZodSchema`, `operationToZodSchema` and the
  per-type subroutines) from `src/plugins/@pinia/colada/mutation.ts`
  (second document in that file),
* the IR context (`broadcast`, `createFile`, `file`, `dereference`) from
  `src/ir/context.ts`,
* the 3.1 dialect parser's parameter merging from the `parseV3_1_X`
  document.

JavaScript objects with insertion-ordered keys are modelled as association
lists; JS `Set` is modelled as a duplicate-free list with idempotent insert;
mutation is modelled by explicit state passing.  Helper functions whose
sources are not part of the given tree (the identifier service of
`generate/files.ts`, `resolveRef` of `utils/ref.ts`,
`hasParameterGroupObjectRequired`, `mergeParametersObjects`,
`parametersArrayToObject`, `deduplicateSchema`, `numberRegExp`) are modelled
from the specification and marked as such in their doc comments.
-/

namespace OpenapiTs

/-- A JSON-like runtime value (what a deserialized OpenAPI document holds,
and what `schema.const` / `schema.default` may carry). -/
inductive Json where
  | null : Json
  | bool (b : Bool) : Json
  | num (n : Int) : Json
  | str (s : String) : Json
  | arr (elems : List Json) : Json
  | obj (fields : List (String × Json)) : Json
deriving Repr

mutual

/-- Structural equality of JSON values (the `===`-with-deep-compare notion
used to model value comparison). -/
def Json.beq : Json → Json → Bool
  | .null, .null => true
  | .bool a, .bool b => a == b
  | .num a, .num b => a == b
  | .str a, .str b => a == b
  | .arr xs, .arr ys => Json.beqList xs ys
  | .obj xs, .obj ys => Json.beqFields xs ys
  | _, _ => false

def Json.beqList : List Json → List Json → Bool
  | [], [] => true
  | x :: xs, y :: ys => Json.beq x y && Json.beqList xs ys
  | _, _ => false

def Json.beqFields : List (String × Json) → List (String × Json) → Bool
  | [], [] => true
  | (k, x) :: xs, (k', y) :: ys => k == k' && Json.beq x y && Json.beqFields xs ys
  | _, _ => false

end

instance : BEq Json := ⟨Json.beq⟩

/-- First-match lookup in an association list, the JS semantics of reading an
object property. -/
def alookup {β : Type} (l : List (String × β)) (k : String) : Option β :=
  match l with
  | [] => none
  | (k', v) :: rest => if k' = k then some v else alookup rest k

theorem alookup_append {β : Type} (a b : List (String × β)) (k : String) :
    alookup (a ++ b) k = (alookup a k).orElse (fun _ => alookup b k) := by
  induction a with
  | nil => simp [alookup]
  | cons hd tl ih =>
    obtain ⟨k', v⟩ := hd
    by_cases h : k' = k <;> simp [alookup, h, ih]

/-! Section 4.A Ref resolver (`utils/ref.ts`, used by `IRContext.dereference`)

Modelled from the spec: the source file `src/utils/ref.ts` is not in the
given tree.  Per spec §4.A, `resolveRef` resolves a JSON Pointer `$ref`
against a root document, decoding `~1` to `/` and `~0` to `~`, and fails
when any segment is missing. -/

/-- Split a character list on a separator character. -/
def splitChars (sep : Char) : List Char → List String
  | [] => [""]
  | c :: rest =>
    match splitChars sep rest with
    | [] => [""]
    | s :: ss => if c = sep then "" :: s :: ss else (String.mk [c] ++ s) :: ss

/-- Model of `s.split('/')` over the underlying characters (the library's
substring-based splitter is opaque to evaluation). -/
def splitOnSlash (s : String) : List String :=
  splitChars '/' s.data

/-- Parse a decimal numeral (the array-index form of a pointer segment). -/
def parseNatSeg (cs : List Char) : Option Nat :=
  match cs with
  | [] => none
  | _ =>
    if cs.all (fun c => c.isDigit) then
      some (cs.foldl (fun acc c => acc * 10 + (c.toNat - '0'.toNat)) 0)
    else
      none

/-- Modelled from the spec: RFC 6901 segment decoding — `~1` becomes `/` and
`~0` becomes `~` (single left-to-right pass, `~1` first). -/
def decodeSegChars : List Char → List Char
  | [] => []
  | '~' :: '1' :: rest => '/' :: decodeSegChars rest
  | '~' :: '0' :: rest => '~' :: decodeSegChars rest
  | c :: rest => c :: decodeSegChars rest

/-- Modelled from the spec: RFC 6901 segment decoding. -/
def decodeSegment (s : String) : String :=
  String.mk (decodeSegChars s.data)

/-- Modelled from the spec: walk the document along decoded pointer
segments; object segments index fields, array segments parse as numbers.
`none` models the thrown `RefNotFound`. -/
def resolvePointer : Json → List String → Option Json
  | doc, [] => some doc
  | Json.obj fields, seg :: rest =>
    match alookup fields seg with
    | some v => resolvePointer v rest
    | none => none
  | Json.arr elems, seg :: rest =>
    match parseNatSeg seg.data with
    | some i =>
      match elems[i]? with
      | some v => resolvePointer v rest
      | none => none
    | none => none
  | _, _ :: _ => none

/-- Modelled from the spec: `resolveRef({$ref, spec})` — a `$ref` of the form
`#/a/b/c` resolved against `spec`. -/
def resolveRef (ref : String) (spec : Json) : Option Json :=
  match splitOnSlash ref with
  | "#" :: segs => resolvePointer spec (segs.map decodeSegment)
  | _ => none

/-! Section `IRContext.dereference` (src/ir/context.ts, lines 177-189)

```ts
public dereference<T>(schema: { $ref: string }) {
  const resolved = this.resolveRef<T>(schema.$ref);
  const dereferenced = { ...schema, ...resolved } as T;
  delete dereferenced.$ref;
  return dereferenced;
}
```
The holder object and the resolved referent are association lists of fields.
The JS spread `{ ...a, ...b }` keeps `a`'s keys in order (values overridden
by `b` on collision) followed by `b`'s new keys. -/

/-- JS object spread `{ ...a, ...b }` on field lists. -/
def spread2 (a b : List (String × Json)) : List (String × Json) :=
  (a.map fun kv => (kv.1, ((alookup b kv.1).getD kv.2))) ++
    b.filter fun kv => (alookup a kv.1).isNone

/-- JS `delete o.k` on a field list. -/
def deleteKey (l : List (String × Json)) (k : String) : List (String × Json) :=
  l.filter fun kv => kv.1 ≠ k

/-- The fields a JS spread takes from a value: an object contributes its
fields, a primitive contributes none (spread of a primitive is empty). -/
def spreadFields : Json → List (String × Json)
  | Json.obj fields => fields
  | _ => []

/-- Model of `IRContext.dereference`: resolve `holder.$ref` against the spec, shallow
merge the referent's fields over the holder's, delete `$ref`.  `none` models
the `RefNotFound` thrown inside `resolveRef`. -/
def dereference (spec : Json) (holder : List (String × Json)) :
    Option (List (String × Json)) :=
  match alookup holder "$ref" with
  | some (Json.str r) =>
    match resolveRef r spec with
    | some resolved => some (deleteKey (spread2 holder (spreadFields resolved)) "$ref")
    | none => none
  | _ => none

theorem alookup_mapValues {β : Type} (l : List (String × β)) (f : String → β → β)
    (k : String) :
    alookup (l.map fun kv => (kv.1, f kv.1 kv.2)) k = (alookup l k).map (f k) := by
  induction l with
  | nil => simp [alookup]
  | cons hd tl ih =>
    obtain ⟨k', v⟩ := hd
    by_cases h : k' = k
    · subst h; simp [alookup]
    · simp [alookup, h, ih]

theorem alookup_filterKeys {β : Type} (l : List (String × β)) (p : String → Bool)
    (k : String) :
    alookup (l.filter fun kv => p kv.1) k =
      if p k then alookup l k else none := by
  induction l with
  | nil => simp [alookup]
  | cons hd tl ih =>
    obtain ⟨k', v⟩ := hd
    by_cases h : k' = k
    · subst h
      by_cases hp : p k' <;> simp [alookup, hp, ih]
    · by_cases hp : p k' <;> simp [alookup, h, hp, ih]

theorem alookup_spread2 (a b : List (String × Json)) (k : String) :
    alookup (spread2 a b) k = (alookup b k).orElse (fun _ => alookup a k) := by
  unfold spread2
  rw [alookup_append, alookup_mapValues a (fun k' v => (alookup b k').getD v) k,
    alookup_filterKeys b (fun k' => (alookup a k').isNone) k]
  cases ha : alookup a k <;> cases hb : alookup b k <;>
    simp [Option.orElse, Option.getD, ha, hb]

theorem alookup_deleteKey (l : List (String × Json)) (k k' : String) :
    alookup (deleteKey l k) k' = if k' = k then none else alookup l k' := by
  unfold deleteKey
  have : (fun kv : String × Json => decide (kv.1 ≠ k)) =
      (fun kv : String × Json => (fun k₀ : String => !(decide (k₀ = k))) kv.1) := by
    funext kv; simp
  rw [show l.filter (fun kv => kv.1 ≠ k) =
        l.filter (fun kv => (fun k₀ : String => !(decide (k₀ = k))) kv.1) from by rw [← this]]
  rw [alookup_filterKeys l (fun k₀ => !(decide (k₀ = k))) k']
  by_cases h : k' = k <;> simp [h]

/-- C8: for every holder object carrying a `$ref`, `dereference` returns the
shallow merge of the referent's fields into the holder's fields, with the
referent's fields taking precedence on key collision, and the returned
object contains no `$ref` key.  (The holder and the spec are unchanged: the
embedding is pure, `dereference` builds a fresh object from its inputs.) -/
theorem dereference_shallow_merge (spec : Json) (holder out : List (String × Json))
    (r : String) (resolvedFields : List (String × Json))
    (href : alookup holder "$ref" = some (Json.str r))
    (hres : resolveRef r spec = some (Json.obj resolvedFields))
    (hout : dereference spec holder = some out) :
    alookup out "$ref" = none ∧
    ∀ k, k ≠ "$ref" →
      alookup out k = (alookup resolvedFields k).orElse (fun _ => alookup holder k) := by
  simp only [dereference, href, hres, Option.some.injEq] at hout
  subst hout
  constructor
  · rw [alookup_deleteKey]; simp
  · intro k hk
    rw [alookup_deleteKey, if_neg hk, alookup_spread2]
    rfl

/-- Witness for `dereference_shallow_merge`: a concrete spec with a `Pet`
component; the referent's `x` field overrides the holder's, the holder's
extra `y` field survives, and `$ref` is stripped. -/
theorem dereference_shallow_merge_witness :
    alookup [("$ref", Json.str "#/components/schemas/Pet"), ("x", Json.num 2),
        ("y", Json.num 3)] "$ref" = some (Json.str "#/components/schemas/Pet") ∧
    resolveRef "#/components/schemas/Pet"
        (Json.obj [("components", Json.obj [("schemas", Json.obj
          [("Pet", Json.obj [("kind", Json.str "object"), ("x", Json.num 1)])])])]) =
      some (Json.obj [("kind", Json.str "object"), ("x", Json.num 1)]) ∧
    alookup [("x", Json.num 1), ("y", Json.num 3), ("kind", Json.str "object")]
        "$ref" = none ∧
    alookup [("x", Json.num 1), ("y", Json.num 3), ("kind", Json.str "object")] "x" =
      some (Json.num 1) := by
  refine ⟨rfl, rfl, ?_⟩
  have h := dereference_shallow_merge
    (Json.obj [("components", Json.obj [("schemas", Json.obj
      [("Pet", Json.obj [("kind", Json.str "object"), ("x", Json.num 1)])])])])
    [("$ref", Json.str "#/components/schemas/Pet"), ("x", Json.num 2), ("y", Json.num 3)]
    [("x", Json.num 1), ("y", Json.num 3), ("kind", Json.str "object")]
    "#/components/schemas/Pet"
    [("kind", Json.str "object"), ("x", Json.num 1)]
    rfl rfl rfl
  exact ⟨h.1, by rw [h.2 "x" (by decide)]; rfl⟩

/-! Section File registry: `IRContext.createFile` / `IRContext.file`
(src/ir/context.ts, lines 159-175 and 194-196)

```ts
public createFile(file: ContextFile): TypeScriptFile {
  // TODO: parser - handle attempt to create duplicate
  const outputParts = file.path.split('/');
  const outputDir = path.resolve(this.config.output.path, ...outputParts.slice(0, -1));
  const createdFile = new TypeScriptFile({ dir, exportFromIndex, id, identifierCase, name: `last.ts` });
  this.files[file.id] = createdFile;
  return createdFile;
}
public file({ id }) { return this.files[id]; }
```
-/

/-- Identifier casing options (spec §4.B). -/
inductive StringCase where
  | camelCase
  | pascalCase
  | snakeCase
  | screamingSnakeCase
  | preserve
deriving DecidableEq, Repr

/-- The argument of `createFile` (interface `ContextFile`). -/
structure ContextFile where
  exportFromIndex : Option Bool := none
  id : String
  identifierCase : Option StringCase := none
  path : String
deriving DecidableEq, Repr

/-- The record the `TypeScriptFile` constructor is invoked with in
`createFile`; the class itself lives in `generate/files.ts` (not in the
given tree), so only the constructor fields visible at the call site are
modelled. -/
structure TypeScriptFile where
  dir : String
  exportFromIndex : Option Bool
  id : String
  identifierCase : Option StringCase
  name : String
deriving DecidableEq, Repr

/-- Model of `path.resolve(root, ...parts)`, modelled as path-segment joining. -/
def pathResolve (parts : List String) : String :=
  String.intercalate "/" parts

/-- JS `obj[k] = v`: update in place when the key exists, append otherwise. -/
def setKey {β : Type} (l : List (String × β)) (k : String) (v : β) :
    List (String × β) :=
  if (alookup l k).isSome then
    l.map fun kv => if kv.1 = k then (k, v) else kv
  else
    l ++ [(k, v)]

theorem alookup_map_update {β : Type} (l : List (String × β)) (k : String) (v : β)
    (hs : (alookup l k).isSome = true) :
    alookup (l.map fun kv => if kv.1 = k then (k, v) else kv) k = some v := by
  induction l with
  | nil => simp [alookup] at hs
  | cons hd tl ih =>
    obtain ⟨k₀, v₀⟩ := hd
    simp only [List.map_cons]
    split
    · simp [alookup]
    · next hne =>
      have h₀ : ¬(k₀ = k) := by simpa using hne
      have : alookup ((k₀, v₀) :: tl) k = alookup tl k := by simp [alookup, h₀]
      rw [show alookup ((k₀, v₀) ::
          tl.map fun kv => if kv.1 = k then (k, v) else kv) k =
          alookup (tl.map fun kv => if kv.1 = k then (k, v) else kv) k from by
            simp [alookup, h₀]]
      exact ih (by rwa [this] at hs)

theorem alookup_setKey_self {β : Type} (l : List (String × β)) (k : String) (v : β) :
    alookup (setKey l k v) k = some v := by
  unfold setKey
  split
  · next hs => exact alookup_map_update l k v hs
  · rw [alookup_append]
    cases h : alookup l k with
    | some w => simp_all
    | none => simp [alookup, Option.orElse]

theorem alookup_map_update_other {β : Type} (l : List (String × β)) (k k' : String)
    (v : β) (h : k' ≠ k) :
    alookup (l.map fun kv => if kv.1 = k then (k, v) else kv) k' = alookup l k' := by
  induction l with
  | nil => simp [alookup]
  | cons hd tl ih =>
    obtain ⟨k₀, v₀⟩ := hd
    simp only [List.map_cons]
    split
    · next heq =>
      have h₀ : k₀ = k := by simpa using heq
      subst h₀
      have hkk : ¬(k₀ = k') := fun hh => h hh.symm
      simp [alookup, hkk, ih]
    · next hne =>
      have h₀ : ¬(k₀ = k) := by simpa using hne
      by_cases h₁ : k₀ = k' <;> simp [alookup, h₁, ih]

theorem alookup_setKey_other {β : Type} (l : List (String × β)) (k k' : String)
    (v : β) (h : k' ≠ k) : alookup (setKey l k v) k' = alookup l k' := by
  unfold setKey
  split
  · exact alookup_map_update_other l k k' v h
  · rw [alookup_append]
    have hkk : ¬(k = k') := fun hh => h hh.symm
    cases hl : alookup l k' with
    | some w => simp [hl, Option.orElse]
    | none => simp [hl, alookup, hkk, Option.orElse]

/-- Model of `IRContext.createFile`: build the `TypeScriptFile` from the supplied
`ContextFile` and store it under `file.id`, returning it.  Per the source
(and its `TODO`), a duplicate id is not detected: the entry is overwritten. -/
def createFile (outputPath : String) (files : List (String × TypeScriptFile))
    (file : ContextFile) : TypeScriptFile × List (String × TypeScriptFile) :=
  let outputParts := splitOnSlash file.path
  let outputDir := pathResolve (outputPath :: outputParts.dropLast)
  let createdFile : TypeScriptFile :=
    { dir := outputDir
      exportFromIndex := file.exportFromIndex
      id := file.id
      identifierCase := file.identifierCase
      name := outputParts.getLastD "" ++ ".ts" }
  (createdFile, setKey files file.id createdFile)

/-- Model of `IRContext.file`: lookup by id. -/
def fileGet (files : List (String × TypeScriptFile)) (id : String) :
    Option TypeScriptFile :=
  alookup files id

/-- C5 counterexample: creating two files with the same id `"a"` surfaces no
warning and the SECOND file wins — the subsequent lookup returns the newly
created file, which differs from the original, refuting the claim that the
existing file wins. -/
theorem createFile_duplicate_claim_false :
    fileGet (createFile "out"
        (createFile "out" [] { id := "a", path := "x" }).2
        { id := "a", path := "y" }).2 "a" =
      some (createFile "out"
        (createFile "out" [] { id := "a", path := "x" }).2
        { id := "a", path := "y" }).1 ∧
    (createFile "out"
        (createFile "out" [] { id := "a", path := "x" }).2
        { id := "a", path := "y" }).1 ≠
      (createFile "out" [] { id := "a", path := "x" }).1 := by
  exact ⟨rfl, by decide⟩

/-- C5 amended: `createFile` with an id already in the registry silently
replaces the entry (the source carries a `TODO` for duplicate handling): a
subsequent lookup by that id returns the NEWLY created file, and lookups of
other ids are unaffected. -/
theorem createFile_last_wins (outputPath : String)
    (files : List (String × TypeScriptFile)) (file : ContextFile) :
    fileGet (createFile outputPath files file).2 file.id =
      some (createFile outputPath files file).1 ∧
    ∀ id, id ≠ file.id →
      fileGet (createFile outputPath files file).2 id = fileGet files id := by
  constructor
  · exact alookup_setKey_self files file.id _
  · intro id hid
    exact alookup_setKey_other files file.id id _ hid

/-- Witness for `createFile_last_wins` at a registry already holding id
`"a"`. -/
theorem createFile_last_wins_witness :
    fileGet (createFile "out"
        (createFile "out" [] { id := "a", path := "x" }).2
        { id := "a", path := "y" }).2 "a" =
      some (createFile "out"
        (createFile "out" [] { id := "a", path := "x" }).2
        { id := "a", path := "y" }).1 ∧
    ("b" : String) ≠ "a" ∧
    fileGet (createFile "out"
        (createFile "out" [] { id := "a", path := "x" }).2
        { id := "a", path := "y" }).2 "b" =
      fileGet (createFile "out" [] { id := "a", path := "x" }).2 "b" := by
  refine ⟨(createFile_last_wins "out"
    (createFile "out" [] { id := "a", path := "x" }).2 { id := "a", path := "y" }).1,
    by decide, ?_⟩
  exact (createFile_last_wins "out"
    (createFile "out" [] { id := "a", path := "x" }).2
    { id := "a", path := "y" }).2 "b" (by decide)

/-! Event bus: `IRContext.subscribe` / `IRContext.broadcast`
(src/ir/context.ts, lines 127-153 and 252-264).

A subscriber's callback is modelled as a state transformer that either
succeeds with a new state or throws (the `Except.error` case carries the
thrown value, normalized to its message string as the source normalizes
non-`Error` throws).  `broadcast` runs the listeners of the event in list
order, awaiting each before the next, and wraps the first failure in a
`HeyApiError` with `name: 'BroadcastError'`. -/

/-- A registered listener (`ListenerWithMeta`). -/
structure ListenerWithMeta (σ α : Type) where
  callbackFn : α → σ → Except String σ
  pluginName : String

/-- The error constructed in `broadcast`'s catch:
`new HeyApiError({ args, error, event, name: 'BroadcastError', pluginName })`.
The `HeyApiError` class itself is in `error.ts` (not in the given tree); the
fields are those of the construction site. -/
structure HeyApiError (α : Type) where
  args : α
  cause : String
  event : String
  name : String
  pluginName : String

/-- Model of `IRContext.subscribe`: append a listener for the event. -/
def subscribe {σ α : Type} (listeners : List (ListenerWithMeta σ α))
    (callbackFn : α → σ → Except String σ) (pluginName : String) :
    List (ListenerWithMeta σ α) :=
  listeners ++ [{ callbackFn := callbackFn, pluginName := pluginName }]

/-- Model of `IRContext.broadcast`: invoke the event's listeners sequentially,
awaiting each; the first throw is wrapped as a `BroadcastError` and
propagated, ending the loop. -/
def broadcast {σ α : Type} (event : String)
    (listeners : List (ListenerWithMeta σ α)) (args : α) (s : σ) :
    Except (HeyApiError α) σ :=
  match listeners with
  | [] => Except.ok s
  | l :: rest =>
    match l.callbackFn args s with
    | Except.ok s' => broadcast event rest args s'
    | Except.error e =>
      Except.error
        { args := args, cause := e, event := event,
          name := "BroadcastError", pluginName := l.pluginName }

theorem broadcast_append {σ α : Type} (event : String)
    (a b : List (ListenerWithMeta σ α)) (args : α) (s : σ) :
    broadcast event (a ++ b) args s =
      match broadcast event a args s with
      | Except.ok s' => broadcast event b args s'
      | Except.error e => Except.error e := by
  induction a generalizing s with
  | nil => simp [broadcast]
  | cons l rest ih =>
    simp only [List.cons_append, broadcast]
    cases l.callbackFn args s with
    | ok s' => exact ih s'
    | error e => rfl

/-- C2: if the listeners before `f` all succeed and `f`'s callback throws,
`broadcast` propagates the throw wrapped as an error named `BroadcastError`
carrying the event, `f`'s plugin name, the broadcast arguments and the
original cause; and the outcome is the same as if the listeners after `f`
were not registered at all — none of them is invoked for this broadcast. -/
theorem broadcast_error_wraps_and_halts {σ α : Type} (event : String)
    (pre post : List (ListenerWithMeta σ α)) (f : ListenerWithMeta σ α)
    (args : α) (s s' : σ) (c : String)
    (hpre : broadcast event pre args s = Except.ok s')
    (hf : f.callbackFn args s' = Except.error c) :
    broadcast event (pre ++ f :: post) args s =
      Except.error
        { args := args, cause := c, event := event,
          name := "BroadcastError", pluginName := f.pluginName } ∧
    broadcast event (pre ++ f :: post) args s =
      broadcast event (pre ++ [f]) args s := by
  have hstep : ∀ tail, broadcast event (pre ++ f :: tail) args s =
      Except.error
        { args := args, cause := c, event := event,
          name := "BroadcastError", pluginName := f.pluginName } := by
    intro tail
    rw [broadcast_append, hpre]
    simp only [broadcast, hf]
  exact ⟨hstep post, by rw [hstep post, hstep []]⟩

/-- Witness for `broadcast_error_wraps_and_halts`: one succeeding listener,
then one that throws `"boom"`, then one more that would append `"c"` to the
log — the result is the wrapped `BroadcastError` of plugin `"p2"`. -/
theorem broadcast_error_wraps_and_halts_witness :
    broadcast "operation"
        [⟨fun _ log => Except.ok (log ++ ["a"]), "p1"⟩]
        (7 : Nat) ([] : List String) = Except.ok ["a"] ∧
    (ListenerWithMeta.callbackFn
        (σ := List String) (α := Nat) ⟨fun _ _ => Except.error "boom", "p2"⟩)
        7 ["a"] = Except.error "boom" ∧
    broadcast "operation"
        [⟨fun _ log => Except.ok (log ++ ["a"]), "p1"⟩,
         ⟨fun _ _ => Except.error "boom", "p2"⟩,
         ⟨fun _ log => Except.ok (log ++ ["c"]), "p3"⟩]
        (7 : Nat) ([] : List String) =
      Except.error
        { args := 7, cause := "boom", event := "operation",
          name := "BroadcastError", pluginName := "p2" } := by
  refine ⟨rfl, rfl, ?_⟩
  exact (broadcast_error_wraps_and_halts "operation"
    [⟨fun _ log => Except.ok (log ++ ["a"]), "p1"⟩]
    [⟨fun _ log => Except.ok (log ++ ["c"]), "p3"⟩]
    ⟨fun _ _ => Except.error "boom", "p2"⟩
    7 [] ["a"] "boom" rfl rfl).1

/-! Schema emitter data model (`IR.SchemaObject`, `plugins/@pinia/colada`
zod emitter document).  The IR schema variants are per spec §3; the fields
below are exactly those the emitter reads. -/

/-- The `type` discriminant of `IR.SchemaObject`. -/
inductive SchemaType where
  | array | boolean | enum | integer | number | never | null
  | object | string | tuple | undefined | unknown | void
deriving DecidableEq, Repr

/-- Model of `logicalOperator` of composite schemas. -/
inductive LogicalOperator where
  | and | or
deriving DecidableEq, Repr

/-- Model of `accessScope` marker (read-only / write-only). -/
inductive AccessScope where
  | read | write
deriving DecidableEq, Repr

/-- The fields of `IR.SchemaObject` the emitter reads, parameterized by the
recursive occurrence. -/
structure SchemaCore (S : Type) where
  ref : Option String := none
  type : Option SchemaType := none
  const : Option Json := none
  format : Option String := none
  items : Option (List S) := none
  logicalOperator : Option LogicalOperator := none
  properties : List (String × S) := []
  required : Option (List String) := none
  accessScope : Option AccessScope := none
  description : Option String := none
  dflt : Option Json := none
  minItems : Option Nat := none
  maxItems : Option Nat := none
  minLength : Option Nat := none
  maxLength : Option Nat := none
  minimum : Option Int := none
  maximum : Option Int := none
  exclusiveMinimum : Option Int := none
  exclusiveMaximum : Option Int := none
  pattern : Option String := none
deriving Repr

/-- Model of `IR.SchemaObject` (`dflt` stands for the `default` field). -/
inductive SchemaObject where
  | mk (core : SchemaCore SchemaObject) : SchemaObject
deriving Repr

def SchemaObject.core : SchemaObject → SchemaCore SchemaObject
  | .mk c => c

def SchemaObject.ref (s : SchemaObject) : Option String := s.core.ref
def SchemaObject.type (s : SchemaObject) : Option SchemaType := s.core.type
def SchemaObject.const (s : SchemaObject) : Option Json := s.core.const
def SchemaObject.format (s : SchemaObject) : Option String := s.core.format
def SchemaObject.items (s : SchemaObject) : Option (List SchemaObject) := s.core.items
def SchemaObject.logicalOperator (s : SchemaObject) : Option LogicalOperator :=
  s.core.logicalOperator
def SchemaObject.properties (s : SchemaObject) : List (String × SchemaObject) :=
  s.core.properties
def SchemaObject.required (s : SchemaObject) : Option (List String) := s.core.required
def SchemaObject.accessScope (s : SchemaObject) : Option AccessScope :=
  s.core.accessScope
def SchemaObject.description (s : SchemaObject) : Option String := s.core.description
def SchemaObject.dflt (s : SchemaObject) : Option Json := s.core.dflt
def SchemaObject.minItems (s : SchemaObject) : Option Nat := s.core.minItems
def SchemaObject.maxItems (s : SchemaObject) : Option Nat := s.core.maxItems
def SchemaObject.minLength (s : SchemaObject) : Option Nat := s.core.minLength
def SchemaObject.maxLength (s : SchemaObject) : Option Nat := s.core.maxLength
def SchemaObject.minimum (s : SchemaObject) : Option Int := s.core.minimum
def SchemaObject.maximum (s : SchemaObject) : Option Int := s.core.maximum
def SchemaObject.exclusiveMinimum (s : SchemaObject) : Option Int :=
  s.core.exclusiveMinimum
def SchemaObject.exclusiveMaximum (s : SchemaObject) : Option Int :=
  s.core.exclusiveMaximum
def SchemaObject.pattern (s : SchemaObject) : Option String := s.core.pattern

/-- Equality on optional JSON values via `Json.beq`. -/
def Json.beqOpt : Option Json → Option Json → Bool
  | none, none => true
  | some a, some b => Json.beq a b
  | _, _ => false

mutual

/-- Structural equality of schemas, used by the modelled `deduplicateSchema`. -/
def SchemaObject.beq : SchemaObject → SchemaObject → Bool
  | .mk a, .mk b => SchemaObject.beqCore a b
termination_by a b => sizeOf a

def SchemaObject.beqCore : SchemaCore SchemaObject → SchemaCore SchemaObject → Bool
  | ⟨r, t, c, f, its, lo, props, req, acc, desc, d, mi, ma, mil, mal, mn, mx, emn, emx, pat⟩,
    ⟨r', t', c', f', its', lo', props', req', acc', desc', d', mi', ma', mil', mal', mn', mx', emn', emx', pat'⟩ =>
    r == r' && t == t' && Json.beqOpt c c' && f == f' &&
    SchemaObject.beqOptList its its' && lo == lo' &&
    SchemaObject.beqProps props props' && req == req' && acc == acc' &&
    desc == desc' && Json.beqOpt d d' && mi == mi' && ma == ma' &&
    mil == mil' && mal == mal' && mn == mn' && mx == mx' &&
    emn == emn' && emx == emx' && pat == pat'
termination_by a b => sizeOf a

def SchemaObject.beqOptList : Option (List SchemaObject) → Option (List SchemaObject) → Bool
  | none, none => true
  | some a, some b => SchemaObject.beqList a b
  | _, _ => false
termination_by a b => sizeOf a

def SchemaObject.beqList : List SchemaObject → List SchemaObject → Bool
  | [], [] => true
  | x :: xs, y :: ys => SchemaObject.beq x y && SchemaObject.beqList xs ys
  | _, _ => false
termination_by a b => sizeOf a

def SchemaObject.beqProps :
    List (String × SchemaObject) → List (String × SchemaObject) → Bool
  | [], [] => true
  | (k, x) :: xs, (k', y) :: ys =>
    k == k' && SchemaObject.beq x y && SchemaObject.beqProps xs ys
  | _, _ => false
termination_by a b => sizeOf a

end

/-- Property keys of an emitted object literal, after the emitter's key
sanitization: a plain identifier key, a string-literal key, a
numeric-literal key, or a key wrapped in quotes. -/
inductive PropName where
  | plain (s : String)
  | strLit (s : String)
  | numLit (s : String)
  | quoted (s : String)
deriving DecidableEq, Repr

/-- The TypeScript expression fragments the emitter builds (mirroring the
`compiler.*` construction helpers used by the source):
`ident` ↔ `compiler.identifier`, `member` ↔
`compiler.propertyAccessExpression`, `call` ↔ `compiler.callExpression`,
`arrow e` ↔ a zero-argument arrow returning `e`, `val` ↔
`compiler.valueToExpression`, `regex` ↔
`compiler.regularExpressionLiteral`. -/
inductive Expr where
  | ident (s : String)
  | member (e : Expr) (name : String)
  | call (f : Expr) (args : List Expr)
  | str (s : String)
  | num (n : Int)
  | boolE (b : Bool)
  | val (j : Json)
  | arrow (body : Expr)
  | arrayLit (elems : List Expr)
  | objectLit (fields : List (PropName × Expr))
  | regex (s : String)
deriving Repr

/-- The chain of method names of a fluent expression, innermost first:
`spine (z.number().int().gte(5)) = ["number", "int", "gte"]`. -/
def Expr.spine : Expr → List String
  | .call (.member e n) _ => Expr.spine e ++ [n]
  | _ => []

/-! Identifier service (`file.identifier` of `generate/files.ts`).

Modelled from the spec (§4.B): the class source is not in the given tree.
If a mapping exists for the `$ref`, it is returned with `created := false`;
otherwise, when `create` is set, a base name is derived from the last
segment of the `$ref`, the name transformer and case conversion are
applied, collisions with existing names are resolved by a numeric suffix,
and the mapping is recorded and returned with `created := true`; without
`create` the empty-name sentinel is returned.  All lookups in this plugin
use the `value` namespace, so the namespace key is omitted.  The model
guarantees created names are nonempty (a degenerate empty base falls back
to `"schema"`), which real ref names satisfy by construction. -/

/-- The result record of `file.identifier`. -/
structure Identifier where
  name : String
  created : Bool
deriving DecidableEq, Repr

/-- Model of `nameTransformer`: a pattern string containing `\x7b\x7bname\x7d\x7d`
or a function. -/
inductive NameTransformer where
  | str (s : String)
  | fn (f : String → String)

/-- Replace occurrences of the four-character marker `\x7b\x7bname\x7d\x7d`
in a pattern by the given name (character-level, left to right). -/
def substNamePattern (name : String) : List Char → List Char
  | '\x7b' :: '\x7b' :: 'n' :: 'a' :: 'm' :: 'e' :: '\x7d' :: '\x7d' :: rest =>
    name.data ++ substNamePattern name rest
  | c :: rest => c :: substNamePattern name rest
  | [] => []

/-- Modelled from the spec: apply the name transformer. -/
def applyNameTransformer : NameTransformer → String → String
  | .str pat, name => String.mk (substNamePattern name pat.data)
  | .fn f, name => f name

/-- Modelled from the spec: case conversion (simple first-character /
whole-string approximations; the claims are insensitive to casing). -/
def applyCase : StringCase → String → String
  | .camelCase, s =>
    match s.data with
    | [] => ""
    | c :: cs => String.mk (c.toLower :: cs)
  | .pascalCase, s =>
    match s.data with
    | [] => ""
    | c :: cs => String.mk (c.toUpper :: cs)
  | .snakeCase, s => String.mk (s.data.map Char.toLower)
  | .screamingSnakeCase, s => String.mk (s.data.map Char.toUpper)
  | .preserve, s => s

/-- Last `/`-segment of a `$ref`. -/
def lastSegment (ref : String) : String :=
  (splitOnSlash ref).getLastD ""

/-- A degenerate empty derived name falls back to a nonempty one. -/
def ensureNonempty (s : String) : String :=
  if s = "" then "schema" else s

/-- Candidate names for collision resolution: the base, then the base with
ever longer numeric suffixes. -/
def nameCandidates (base : String) (n : Nat) : List String :=
  (List.range (n + 1)).map fun i => base ++ String.mk (List.replicate i '2')

/-- Modelled from the spec: resolve collisions with the already-used names
by appending a numeric suffix. -/
def uniquifyName (base : String) (used : List String) : String :=
  match (nameCandidates base (used.length + 1)).find? (fun c => !used.contains c) with
  | some c => c
  | none => base

theorem nameCandidates_length (base : String) (n : Nat) :
    (nameCandidates base n).length = n + 1 := by
  simp [nameCandidates]

theorem mem_nameCandidates_ne_empty (base : String) (n : Nat) (c : String)
    (hb : base ≠ "") (hc : c ∈ nameCandidates base n) : c ≠ "" := by
  simp only [nameCandidates, List.mem_map] at hc
  obtain ⟨i, _, rfl⟩ := hc
  intro h
  apply hb
  have : (base ++ String.mk (List.replicate i '2')).length = 0 := by rw [h]; rfl
  rw [String.length_append] at this
  have hb0 : base.length = 0 := by omega
  cases hbs : base.data with
  | nil => cases base; simp_all
  | cons c cs => rw [String.length, hbs] at hb0; simp at hb0

theorem ensureNonempty_ne_empty (s : String) : ensureNonempty s ≠ "" := by
  unfold ensureNonempty
  split
  · decide
  · assumption

theorem nameCandidates_nodup (base : String) (n : Nat) :
    (nameCandidates base n).Nodup := by
  unfold nameCandidates
  refine List.Nodup.map_on ?_ (List.nodup_range _)
  intro i _ j _ h
  have hlen : (base ++ String.mk (List.replicate i '2')).length =
      (base ++ String.mk (List.replicate j '2')).length := by rw [h]
  rw [String.length_append, String.length_append] at hlen
  have hi : (String.mk (List.replicate i '2')).length = i := by
    show (List.replicate i '2').length = i
    simp
  have hj : (String.mk (List.replicate j '2')).length = j := by
    show (List.replicate j '2').length = j
    simp
  omega

theorem uniquifyName_spec (base : String) (used : List String) (hb : base ≠ "") :
    uniquifyName base used ∉ used ∧ uniquifyName base used ≠ "" := by
  unfold uniquifyName
  cases hf : (nameCandidates base (used.length + 1)).find? (fun c => !used.contains c) with
  | some c =>
    have hp := List.find?_some hf
    have hmem := List.mem_of_find?_eq_some hf
    have hnot : c ∉ used := by
      have : used.contains c = false := by simpa using hp
      simpa using this
    exact ⟨hnot, mem_nameCandidates_ne_empty base _ c hb hmem⟩
  | none =>
    exfalso
    rw [List.find?_eq_none] at hf
    have hsub : nameCandidates base (used.length + 1) ⊆ used := by
      intro c hc
      have := hf c hc
      have : used.contains c = true := by simpa using this
      simpa using this
    have hle := ((nameCandidates_nodup base (used.length + 1)).subperm hsub).length_le
    rw [nameCandidates_length] at hle
    omega

/-- Modelled from the spec: derive the emitted name — last `$ref` segment,
name transformer, case conversion, collision suffix. -/
def deriveIdentifierName (nameCase : StringCase) (tf : NameTransformer)
    (ref : String) (used : List String) : String :=
  uniquifyName
    (ensureNonempty (applyCase nameCase (applyNameTransformer tf (lastSegment ref))))
    used

theorem deriveIdentifierName_spec (nameCase : StringCase) (tf : NameTransformer)
    (ref : String) (used : List String) :
    deriveIdentifierName nameCase tf ref used ∉ used ∧
    deriveIdentifierName nameCase tf ref used ≠ "" :=
  uniquifyName_spec _ used (ensureNonempty_ne_empty _)

/-- Modelled from the spec: `file.identifier` — return the existing mapping
with `created := false`; otherwise create one when asked (recording the
fresh name); otherwise the empty-name sentinel. -/
def fileIdentifier (idents : List (String × String)) (nameCase : StringCase)
    (tf : NameTransformer) (ref : String) (create : Bool) :
    Identifier × List (String × String) :=
  match alookup idents ref with
  | some n => ({ name := n, created := false }, idents)
  | none =>
    if create then
      let n := deriveIdentifierName nameCase tf ref (idents.map Prod.snd)
      ({ name := n, created := true }, idents ++ [(ref, n)])
    else
      ({ name := "", created := false }, idents)

/-- JS `Set.add`: idempotent append. -/
def setAdd (l : List String) (x : String) : List String :=
  if l.contains x then l else l ++ [x]

/-- JS `Set.delete`: remove the element. -/
def setDelete (l : List String) (x : String) : List String :=
  l.filter fun y => y ≠ x

/-- An emitted top-level `const` declaration (`compiler.constVariable`):
name, initializer, optional explicit type annotation under `z.` (the
`typeName` argument).  Comments are not modelled. -/
structure Decl where
  name : String
  expr : Expr
  typeName : Option String
deriving Repr

/-- The emitter state: the source `State` (`circularReferenceTracker`,
`hasCircularReference`, `nameCase`, `nameTransformer`) together with the
file's identifier table and emitted nodes, which the source holds in the
`GeneratedFile` (mutation modelled by state passing). -/
structure EmitState where
  circularReferenceTracker : List String
  hasCircularReference : Bool
  nameCase : StringCase
  nameTransformer : NameTransformer
  idents : List (String × String)
  decls : List Decl

/-- Outcome of an emitter computation: a value with the updated state, a
thrown `RefNotFound` (from `resolveIrRef`), another thrown JS error, or
exhausted recursion fuel. -/
inductive ERes (α : Type) where
  | ok (val : α) (st : EmitState)
  | refNotFound (r : String)
  | jsError
  | outOfFuel

/-- The IR components, keyed by `$ref` (the target of `resolveIrRef`). -/
def IRGraph : Type := List (String × SchemaObject)

/-- Model of `context.resolveIrRef<IR.SchemaObject>(...)`. -/
def resolveIrRef (g : IRGraph) (ref : String) : Option SchemaObject :=
  alookup g ref

/-- The plugin configuration fields the emitter reads. -/
structure PluginConfig where
  metadata : Bool

def zMember (name : String) : Expr :=
  Expr.member (Expr.ident "z") name

/-- Model of `booleanTypeToZodSchema` (source lines 293-317). -/
def booleanTypeToZodSchema (schema : SchemaObject) : Expr :=
  match schema.const with
  | some (Json.bool b) => Expr.call (zMember "literal") [Expr.boolE b]
  | _ => Expr.call (zMember "boolean") []

/-- Model of `neverTypeToZodSchema`. -/
def neverTypeToZodSchema (_schema : SchemaObject) : Expr :=
  Expr.call (zMember "never") []

/-- Model of `nullTypeToZodSchema`. -/
def nullTypeToZodSchema (_schema : SchemaObject) : Expr :=
  Expr.call (zMember "null") []

/-- Model of `undefinedTypeToZodSchema`. -/
def undefinedTypeToZodSchema (_schema : SchemaObject) : Expr :=
  Expr.call (zMember "undefined") []

/-- Model of `unknownTypeToZodSchema`. -/
def unknownTypeToZodSchema (_schema : SchemaObject) : Expr :=
  Expr.call (zMember "unknown") []

/-- Model of `voidTypeToZodSchema`. -/
def voidTypeToZodSchema (_schema : SchemaObject) : Expr :=
  Expr.call (zMember "void") []

/-- Model of `enumTypeToZodSchema` (source lines 319-375): collect string-const
members, track nullability from `null` members, fall back to `z.unknown()`
when no members, wrap with `.nullable()` when nullable. -/
def enumTypeToZodSchema (schema : SchemaObject) : Expr :=
  let step : List Expr × Bool → SchemaObject → List Expr × Bool := fun acc item =>
    match item.type, item.const with
    | some SchemaType.string, some (Json.str s) => (acc.1 ++ [Expr.str s], acc.2)
    | _, _ =>
      if item.type = some SchemaType.null ||
          (match item.const with
           | some Json.null => true
           | _ => false) then
        (acc.1, true)
      else acc
  let collected := (schema.items.getD []).foldl step ([], false)
  if collected.1.isEmpty then
    unknownTypeToZodSchema schema
  else
    let enumExpression :=
      Expr.call (zMember "enum") [Expr.arrayLit collected.1]
    if collected.2 then
      Expr.call (Expr.member enumExpression "nullable") []
    else
      enumExpression

/-- Model of `numberParameter` (source lines 409-432): route the value through a
`BigInt(...)` call for big-integer schemas when its runtime type allows. -/
def numberParameter (isBigInt : Bool) (value : Json) : Expr :=
  let expression := Expr.val value
  if isBigInt &&
      (match value with
       | Json.num _ => true
       | Json.str _ => true
       | Json.bool _ => true
       | _ => false) then
    Expr.call (Expr.ident "BigInt") [expression]
  else
    expression

/-- Model of `numberTypeToZodSchema` (source lines 434-519): `z.literal` for numeric
consts; `z.coerce.bigint()` for `int64` integers, `z.number()` otherwise
with `.int()` appended for non-big integers; then bound refinements,
exclusive bounds winning over inclusive ones. -/
def numberTypeToZodSchema (schema : SchemaObject) : Expr :=
  let isBigInt := schema.type = some SchemaType.integer &&
    schema.format = some "int64"
  match schema.const with
  | some (Json.num n) => Expr.call (zMember "literal") [Expr.num n]
  | _ =>
    let base :=
      if isBigInt then
        Expr.call (Expr.member (zMember "coerce") "bigint") []
      else
        Expr.call (zMember "number") []
    let withInt :=
      if !isBigInt && schema.type = some SchemaType.integer then
        Expr.call (Expr.member base "int") []
      else base
    let withMin :=
      match schema.exclusiveMinimum with
      | some lo =>
        Expr.call (Expr.member withInt "gt") [numberParameter isBigInt (Json.num lo)]
      | none =>
        match schema.minimum with
        | some lo =>
          Expr.call (Expr.member withInt "gte") [numberParameter isBigInt (Json.num lo)]
        | none => withInt
    match schema.exclusiveMaximum with
    | some hi =>
      Expr.call (Expr.member withMin "lt") [numberParameter isBigInt (Json.num hi)]
    | none =>
      match schema.maximum with
      | some hi =>
        Expr.call (Expr.member withMin "lte") [numberParameter isBigInt (Json.num hi)]
      | none => withMin

/-- Model of `stringTypeToZodSchema` (source lines 634-740): `z.literal` for string
consts; otherwise `z.string()` with one recognized format refinement, then
`.length` or `.min`/`.max`, then `.regex` last. -/
def stringTypeToZodSchema (schema : SchemaObject) : Expr :=
  match schema.const with
  | some (Json.str s) => Expr.call (zMember "literal") [Expr.str s]
  | _ =>
    let base := Expr.call (zMember "string") []
    let withFormat :=
      match schema.format with
      | some f =>
        if f = "date-time" then Expr.call (Expr.member base "datetime") []
        else if f = "ipv4" || f = "ipv6" then Expr.call (Expr.member base "ip") []
        else if f = "uri" then Expr.call (Expr.member base "url") []
        else if f = "date" || f = "email" || f = "time" || f = "uuid" then
          Expr.call (Expr.member base f) []
        else base
      | none => base
    let withLen :=
      if schema.minLength = schema.maxLength && schema.minLength.isSome then
        Expr.call (Expr.member withFormat "length")
          [Expr.val (Json.num (Int.ofNat (schema.minLength.getD 0)))]
      else
        let withMin :=
          match schema.minLength with
          | some n =>
            Expr.call (Expr.member withFormat "min") [Expr.val (Json.num (Int.ofNat n))]
          | none => withFormat
        match schema.maxLength with
        | some n =>
          Expr.call (Expr.member withMin "max") [Expr.val (Json.num (Int.ofNat n))]
        | none => withMin
    match schema.pattern with
    | some p =>
      if p = "" then withLen
      else Expr.call (Expr.member withLen "regex") [Expr.regex p]
    | none => withLen

/-- Modelled from the spec: `deduplicateSchema` of `ir/schema.ts` is not in
the given tree; per spec §4.I (dispatch step 3) composite items are
deduplicated.  Duplicates (structural equality) are removed keeping first
occurrences; other fields are untouched. -/
def dedupItems : List SchemaObject → List SchemaObject
  | [] => []
  | x :: xs => x :: dedupItems (xs.filter fun y => !SchemaObject.beq x y)
termination_by l => l.length
decreasing_by
  simp only [List.length_cons]
  exact Nat.lt_succ_of_le (List.length_filter_le _ _)

theorem mem_dedupItems (l : List SchemaObject) (y : SchemaObject)
    (h : y ∈ dedupItems l) : y ∈ l := by
  induction l using dedupItems.induct with
  | case1 => simp [dedupItems] at h
  | case2 x xs ih =>
    rw [dedupItems] at h
    rcases List.mem_cons.mp h with h1 | h2
    · exact h1 ▸ List.mem_cons_self x xs
    · exact List.mem_cons_of_mem x (List.mem_of_mem_filter (ih h2))

/-- Modelled from the spec: `deduplicateSchema` — deduplicate the `items`
when present. -/
def deduplicateSchema (schema : SchemaObject) : SchemaObject :=
  match schema with
  | .mk c => .mk { c with items := c.items.map dedupItems }

/-- Model of `z.lazy(() => name)` (source lines 1182-1196). -/
def lazyOf (name : String) : Expr :=
  Expr.call (zMember "lazy") [Expr.arrow (Expr.ident name)]

/-- Sequencing of emitter computations with error propagation. -/
def ERes.andThen {α β : Type} (r : ERes α) (f : α → EmitState → ERes β) : ERes β :=
  match r with
  | .ok v st => f v st
  | .refNotFound r => .refNotFound r
  | .jsError => .jsError
  | .outOfFuel => .outOfFuel

/-- Array bound refinements (source lines 260-288): `.length(n)` when
`minItems === maxItems`, else `.min()` / `.max()` independently. -/
def applyArrayBounds (schema : SchemaObject) (e : Expr) : Expr :=
  if schema.minItems = schema.maxItems && schema.minItems.isSome then
    Expr.call (Expr.member e "length")
      [Expr.val (Json.num (Int.ofNat (schema.minItems.getD 0)))]
  else
    let e1 :=
      match schema.minItems with
      | some n => Expr.call (Expr.member e "min") [Expr.val (Json.num (Int.ofNat n))]
      | none => e
    match schema.maxItems with
    | some n => Expr.call (Expr.member e1 "max") [Expr.val (Json.num (Int.ofNat n))]
    | none => e1

/-- The apostrophe character (for the key-quoting checks). -/
def apostChar : Char := '\x27'

/-- Modelled from the spec: `numberRegExp` of `utils/regexp.ts` is not in
the given tree; per spec §4.I a "numeric-like" key is an optional leading
minus, digits, and an optional decimal part. -/
def numberRegExpTest (name : String) : Bool :=
  let cs := match name.data with
    | '-' :: rest => rest
    | l => l
  match cs with
  | [] => false
  | _ =>
    let intPart := cs.takeWhile Char.isDigit
    let rest := cs.dropWhile Char.isDigit
    !intPart.isEmpty &&
      (rest.isEmpty ||
        (rest.head? = some '.' && !rest.tail.isEmpty && rest.tail.all Char.isDigit))

/-- Property-key sanitization (source lines 553-571): numeric-like keys
become numeric literals (negative ones string literals); keys starting with
a digit but containing non-digits, or containing a non-word character, are
quoted unless already quoted. -/
def sanitizePropertyName (name : String) : PropName :=
  let base : PropName :=
    if numberRegExpTest name then
      if name.data.head? = some '-' then PropName.strLit name
      else PropName.numLit name
    else PropName.plain name
  let startsWithDigit := match name.data.head? with
    | some c => c.isDigit
    | none => false
  let hasNonDigit := name.data.any fun c => !c.isDigit
  let hasNonWord := name.data.any fun c => !(c.isAlphanum || c = '_')
  if ((startsWithDigit && hasNonDigit) || hasNonWord) &&
      !(name.data.head? = some apostChar) && !(name.data.getLast? = some apostChar) then
    PropName.quoted name
  else base

/-- The post-emission steps of `schemaToZodSchema` (source lines
1295-1355): remove the supplied `$ref` from the tracker, apply the
`.readonly()` / `.optional()` / `.default()` modifiers in this order, and
append the `const` declaration when the supplied identifier was newly
created (with the explicit `z.<AnyType>` annotation when a circular
reference was seen). -/
def finishExpr (opt : Bool) (schema : SchemaObject) (e : Expr) : Expr :=
  let e1 :=
    if schema.accessScope = some AccessScope.read then
      Expr.call (Expr.member e "readonly") []
    else e
  let e2 := if opt then Expr.call (Expr.member e1 "optional") [] else e1
  match schema.dflt with
  | some v =>
    let isBigInt := schema.type = some SchemaType.integer &&
      schema.format = some "int64"
    Expr.call (Expr.member e2 "default") [numberParameter isBigInt v]
  | none => e2

/-- The node appended by the top-level emission step (source lines
1336-1353): a `const` declaration when the identifier was newly created,
annotated when a circular reference was seen. -/
def finishDecls (identifier : Option Identifier) (hasCirc : Bool)
    (anyType : Option String) (e3 : Expr) : List Decl :=
  match identifier with
  | some id =>
    if !(id.name == "") && id.created then
      [{ name := id.name, expr := e3,
         typeName := if hasCirc then some (anyType.getD "ZodTypeAny") else none }]
    else []
  | none => []

/-- The tracker after the exit step (source lines 1295-1297). -/
def finishTracker (refOpt : Option String) (tracker : List String) : List String :=
  match refOpt with
  | some r => setDelete tracker r
  | none => tracker

def finishEmit (refOpt : Option String) (identifier : Option Identifier)
    (opt : Bool) (schema : SchemaObject) (anyType : Option String) (e : Expr)
    (st : EmitState) : Expr × EmitState :=
  let e3 := finishExpr opt schema e
  (e3,
    { st with
      circularReferenceTracker := finishTracker refOpt st.circularReferenceTracker,
      decls := st.decls ++ finishDecls identifier st.hasCircularReference anyType e3 })

/-- The entry steps of `schemaToZodSchema` (source lines 1128-1146): when a
`$ref` argument is supplied, put it on the circular-reference tracker and
create its identifier unless one was passed in. -/
def emitEntry (refOpt : Option String) (identArg : Option Identifier)
    (st0 : EmitState) : Option Identifier × EmitState :=
  match refOpt with
  | none => (identArg, st0)
  | some r =>
    match identArg with
    | some i =>
      (some i, { st0 with
        circularReferenceTracker := setAdd st0.circularReferenceTracker r })
    | none =>
      let created := fileIdentifier st0.idents st0.nameCase st0.nameTransformer r true
      (some created.1, { st0 with
        circularReferenceTracker := setAdd st0.circularReferenceTracker r,
        idents := created.2 })

mutual

/-- Model of `schemaToZodSchema` (source lines 1105-1356), fuel-indexed: the fuel
bounds the recursion depth, `ERes.outOfFuel` never occurs for sufficient
fuel (proved separately). -/
def schemaToZodSchema : Nat → IRGraph → PluginConfig → Option String →
    Option Identifier → Bool → SchemaObject → EmitState → ERes Expr
  | 0, _, _, _, _, _, _, _ => ERes.outOfFuel
  | fuel + 1, g, cfg, refOpt, identArg, opt, schema, st0 =>
    let entry := emitEntry refOpt identArg st0
    (schemaToZodSchemaBody fuel g cfg schema entry.2).andThen fun body st1 =>
      let fin := finishEmit refOpt entry.1 opt body.1 body.2.1 body.2.2 st1
      ERes.ok fin.1 fin.2

/-- The dispatch of `schemaToZodSchema` (source lines 1148-1293), extracted:
its value carries the possibly reassigned `schema` variable, the `anyType`
of the dispatched subroutine and the pre-modifier expression into the
shared postlude. -/
def schemaToZodSchemaBody : Nat → IRGraph → PluginConfig → SchemaObject →
    EmitState → ERes (SchemaObject × Option String × Expr)
  | 0, _, _, _, _ => ERes.outOfFuel
  | fuel + 1, g, cfg, schema, st =>
    match schema.ref with
    | some r =>
      let isCircularReference := st.circularReferenceTracker.contains r
      let identifierRef0 :=
        (fileIdentifier st.idents st.nameCase st.nameTransformer r false).1
      if identifierRef0.name = "" then
        match resolveIrRef g r with
        | none => ERes.refNotFound r
        | some refSchema =>
          (schemaToZodSchema fuel g cfg (some r) none false refSchema st).andThen
            fun inlined st2 =>
              let identifierRef :=
                (fileIdentifier st2.idents st2.nameCase st2.nameTransformer r false).1
              if identifierRef.name = "" then
                ERes.ok (schema, none, inlined) st2
              else if isCircularReference then
                ERes.ok (schema, none, lazyOf identifierRef.name)
                  { st2 with hasCircularReference := true }
              else
                ERes.ok (schema, none, Expr.ident identifierRef.name) st2
      else if isCircularReference then
        ERes.ok (schema, none, lazyOf identifierRef0.name)
          { st with hasCircularReference := true }
      else
        ERes.ok (schema, none, Expr.ident identifierRef0.name) st
    | none =>
      match schema.type with
      | some _ =>
        (schemaTypeToZodSchema fuel g cfg schema st).andThen fun zodSchema st1 =>
          let withDesc :=
            match schema.description with
            | some d =>
              if cfg.metadata && !(d == "") then
                Expr.call (Expr.member zodSchema.2 "describe") [Expr.str d]
              else zodSchema.2
            | none => zodSchema.2
          ERes.ok (schema, zodSchema.1, withDesc) st1
      | none =>
        match schema.items with
        | some _ =>
          let schema2 := deduplicateSchema schema
          match schema2.items with
          | some items2 =>
            (emitList fuel g cfg items2 st).andThen fun itemTypes st1 =>
              if schema2.logicalOperator = some LogicalOperator.and then
                match items2, itemTypes with
                | firstSchema :: _, t0 :: ts =>
                  if firstSchema.logicalOperator = some LogicalOperator.or ||
                      (match firstSchema.type with
                       | some t => t ≠ SchemaType.object
                       | none => false) then
                    ERes.ok (schema2, none,
                      Expr.call (zMember "intersection") itemTypes) st1
                  else
                    ERes.ok (schema2, none,
                      ts.foldl
                        (fun acc item =>
                          Expr.call (Expr.member acc "and") [item]) t0) st1
                | _, _ => ERes.jsError
              else
                ERes.ok (schema2, none,
                  Expr.call (zMember "union") [Expr.arrayLit itemTypes]) st1
          | none =>
            (schemaToZodSchema fuel g cfg none none false schema2 st).andThen
              fun e st1 => ERes.ok (schema2, none, e) st1
        | none =>
          (schemaTypeToZodSchema fuel g cfg
              (SchemaObject.mk { type := some SchemaType.unknown }) st).andThen
            fun zodSchema st1 => ERes.ok (schema, zodSchema.1, zodSchema.2) st1

/-- Model of `schemaTypeToZodSchema` (source lines 849-952): dispatch on `type`;
only the object branch contributes an `anyType`. -/
def schemaTypeToZodSchema : Nat → IRGraph → PluginConfig → SchemaObject →
    EmitState → ERes (Option String × Expr)
  | 0, _, _, _, _ => ERes.outOfFuel
  | fuel + 1, g, cfg, schema, st =>
    match schema.type with
    | some SchemaType.array =>
      (arrayTypeToZodSchema fuel g cfg schema st).andThen fun e st1 =>
        ERes.ok (none, e) st1
    | some SchemaType.boolean => ERes.ok (none, booleanTypeToZodSchema schema) st
    | some SchemaType.enum => ERes.ok (none, enumTypeToZodSchema schema) st
    | some SchemaType.integer => ERes.ok (none, numberTypeToZodSchema schema) st
    | some SchemaType.number => ERes.ok (none, numberTypeToZodSchema schema) st
    | some SchemaType.never => ERes.ok (none, neverTypeToZodSchema schema) st
    | some SchemaType.null => ERes.ok (none, nullTypeToZodSchema schema) st
    | some SchemaType.object => objectTypeToZodSchema fuel g cfg schema st
    | some SchemaType.string => ERes.ok (none, stringTypeToZodSchema schema) st
    | some SchemaType.tuple =>
      (tupleTypeToZodSchema fuel g cfg schema st).andThen fun e st1 =>
        ERes.ok (none, e) st1
    | some SchemaType.undefined => ERes.ok (none, undefinedTypeToZodSchema schema) st
    | some SchemaType.unknown => ERes.ok (none, unknownTypeToZodSchema schema) st
    | some SchemaType.void => ERes.ok (none, voidTypeToZodSchema schema) st
    | none => ERes.jsError

/-- Model of `arrayTypeToZodSchema` (source lines 183-291). -/
def arrayTypeToZodSchema : Nat → IRGraph → PluginConfig → SchemaObject →
    EmitState → ERes Expr
  | 0, _, _, _, _ => ERes.outOfFuel
  | fuel + 1, g, cfg, schema0, st =>
    match schema0.items with
    | none =>
      ERes.ok
        (applyArrayBounds schema0
          (Expr.call (zMember "array")
            [unknownTypeToZodSchema (SchemaObject.mk { type := some SchemaType.unknown })]))
        st
    | some _ =>
      let schema := deduplicateSchema schema0
      match schema.items with
      | some items =>
        (emitList fuel g cfg items st).andThen fun itemExpressions st1 =>
          let arrayExpression :=
            if itemExpressions.length = 1 then
              Expr.call (zMember "array") itemExpressions
            else
              Expr.call (zMember "array")
                [Expr.call (zMember "union") [Expr.arrayLit itemExpressions]]
          ERes.ok (applyArrayBounds schema arrayExpression) st1
      | none => ERes.jsError

/-- Model of `objectTypeToZodSchema` (source lines 521-632). -/
def objectTypeToZodSchema : Nat → IRGraph → PluginConfig → SchemaObject →
    EmitState → ERes (Option String × Expr)
  | 0, _, _, _, _ => ERes.outOfFuel
  | fuel + 1, g, cfg, schema, st =>
    let required := schema.required.getD []
    (emitProperties fuel g cfg required schema.properties st).andThen
      fun properties st1 =>
        ERes.ok (some "AnyZodObject",
          Expr.call (zMember "object") [Expr.objectLit properties]) st1

/-- Model of `tupleTypeToZodSchema` (source lines 742-799). -/
def tupleTypeToZodSchema : Nat → IRGraph → PluginConfig → SchemaObject →
    EmitState → ERes Expr
  | 0, _, _, _, _ => ERes.outOfFuel
  | fuel + 1, g, cfg, schema, st =>
    match schema.const with
    | some (Json.arr values) =>
      ERes.ok
        (Expr.call (zMember "tuple")
          [Expr.arrayLit
            (values.map fun v => Expr.call (zMember "literal") [Expr.val v])])
        st
    | _ =>
      (emitList fuel g cfg (schema.items.getD []) st).andThen fun tupleElements st1 =>
        ERes.ok (Expr.call (zMember "tuple") [Expr.arrayLit tupleElements]) st1

/-- Sequential emission of a list of item schemas (the `schema.items.map`
loops of the array / composite / tuple subroutines, with the shared mutable
state threaded through). -/
def emitList : Nat → IRGraph → PluginConfig → List SchemaObject → EmitState →
    ERes (List Expr)
  | 0, _, _, _, _ => ERes.outOfFuel
  | _ + 1, _, _, [], st => ERes.ok [] st
  | fuel + 1, g, cfg, item :: rest, st =>
    (schemaToZodSchema fuel g cfg none none false item st).andThen fun e st1 =>
      (emitList fuel g cfg rest st1).andThen fun es st2 =>
        ERes.ok (e :: es) st2

/-- Sequential emission of an object's properties (the `for (const name in
schema.properties)` loop of `objectTypeToZodSchema`, lines 542-583):
each property is emitted with `optional := !required.includes(name)` and
its key sanitized. -/
def emitProperties : Nat → IRGraph → PluginConfig → List String →
    List (String × SchemaObject) → EmitState → ERes (List (PropName × Expr))
  | 0, _, _, _, _, _ => ERes.outOfFuel
  | _ + 1, _, _, _, [], st => ERes.ok [] st
  | fuel + 1, g, cfg, required, (name, property) :: rest, st =>
    let isRequired := required.contains name
    (schemaToZodSchema fuel g cfg none none (!isRequired) property st).andThen
      fun pe st1 =>
        (emitProperties fuel g cfg required rest st1).andThen fun pes st2 =>
          ERes.ok ((sanitizePropertyName name, pe) :: pes) st2

end

/-! Invariants of the emitter, used by the theorems below. -/

/-- A `$ref` has an identifier mapping in the state. -/
def hasIdent (st : EmitState) (r : String) : Prop :=
  (alookup st.idents r).isSome = true

theorem sizeOf_items_lt (s : SchemaObject) (l : List SchemaObject)
    (h : s.items = some l) : sizeOf l < sizeOf s := by
  obtain ⟨c⟩ := s
  obtain ⟨f1, f2, f3, f4, its, f6, f7, f8, f9, f10, f11, f12, f13, f14, f15,
    f16, f17, f18, f19, f20⟩ := c
  simp only [SchemaObject.items, SchemaObject.core] at h
  subst h
  simp
  omega

theorem sizeOf_properties_le (s : SchemaObject) :
    sizeOf s.properties < sizeOf s := by
  obtain ⟨c⟩ := s
  obtain ⟨f1, f2, f3, f4, f5, f6, props, f8, f9, f10, f11, f12, f13, f14, f15,
    f16, f17, f18, f19, f20⟩ := c
  simp only [SchemaObject.properties, SchemaObject.core]
  simp
  omega

theorem sizeOf_dedup_mem_lt (s : SchemaObject) (l : List SchemaObject)
    (x : SchemaObject) (h : s.items = some l) (hx : x ∈ dedupItems l) :
    sizeOf x < sizeOf s :=
  lt_trans (List.sizeOf_lt_of_mem (mem_dedupItems l x hx)) (sizeOf_items_lt s l h)

theorem sizeOf_mem_items_lt (s : SchemaObject) (l : List SchemaObject)
    (x : SchemaObject) (h : s.items = some l) (hx : x ∈ l) :
    sizeOf x < sizeOf s :=
  lt_trans (List.sizeOf_lt_of_mem hx) (sizeOf_items_lt s l h)

theorem sizeOf_mem_properties_lt (s : SchemaObject) (kv : String × SchemaObject)
    (h : kv ∈ s.properties) : sizeOf kv.2 < sizeOf s := by
  have h1 : sizeOf kv ≤ sizeOf s.properties := le_of_lt (List.sizeOf_lt_of_mem h)
  have h2 : sizeOf kv.2 < sizeOf kv := by
    obtain ⟨a, b⟩ := kv
    simp
  exact lt_of_lt_of_le h2 (le_trans h1 (le_of_lt (sizeOf_properties_le s)))

/-- The `$ref`s the emitter's traversal visits directly from a schema
(without following the component graph): the dispatch mirror of
`schemaToZodSchema` / `schemaTypeToZodSchema`. -/
def directRefs (s : SchemaObject) : List String :=
  match s.ref with
  | some r => [r]
  | none =>
    match s.type with
    | some SchemaType.array =>
      (match h : s.items with
       | none => []
       | some l =>
         (dedupItems l).attach.flatMap fun x => directRefs x.1)
    | some SchemaType.object =>
      s.properties.attach.flatMap fun kv => directRefs kv.1.2
    | some SchemaType.tuple =>
      (match s.const with
       | some (Json.arr _) => []
       | _ =>
         match h : s.items with
         | none => []
         | some l => l.attach.flatMap fun x => directRefs x.1)
    | some _ => []
    | none =>
      match h : s.items with
      | some l =>
        (dedupItems l).attach.flatMap fun x => directRefs x.1
      | none => []
termination_by sizeOf s
decreasing_by
  all_goals first
    | exact sizeOf_dedup_mem_lt s _ x.1 h x.2
    | exact sizeOf_mem_properties_lt s kv.1 kv.2
    | exact sizeOf_mem_items_lt s _ x.1 h x.2

/-- Well-formedness of an emitter state: stored identifier names are
nonempty and pairwise distinct, and every tracked `$ref` has an
identifier. -/
def PreState (st : EmitState) : Prop :=
  (∀ p ∈ st.idents, p.2 ≠ "") ∧
  (st.idents.map Prod.snd).Nodup ∧
  (∀ r ∈ st.circularReferenceTracker, hasIdent st r)

/-- Every created component that is not in progress (not on the tracker)
already has identifiers for all `$ref`s its schema directly mentions. -/
def Closed (g : IRGraph) (st : EmitState) : Prop :=
  ∀ r, hasIdent st r → r ∉ st.circularReferenceTracker →
    ∀ s, alookup g r = some s → ∀ r' ∈ directRefs s, hasIdent st r'

/-- How one emitter call evolves the state: identifiers and declarations
are append-only and in bijection by name (the new declarations' names are a
permutation of the newly created identifiers' names), the tracker is
restored, and the naming configuration is untouched. -/
def PostState (st st' : EmitState) : Prop :=
  (∃ newIds newDecls,
    st'.idents = st.idents ++ newIds ∧
    st'.decls = st.decls ++ newDecls ∧
    (newDecls.map Decl.name).Perm (newIds.map Prod.snd)) ∧
  st'.circularReferenceTracker = st.circularReferenceTracker ∧
  st'.nameCase = st.nameCase ∧
  st'.nameTransformer = st.nameTransformer

theorem PostState.refl (st : EmitState) : PostState st st :=
  ⟨⟨[], [], by simp, by simp, List.Perm.refl _⟩, rfl, rfl, rfl⟩

theorem PostState.trans {s1 s2 s3 : EmitState} (h12 : PostState s1 s2)
    (h23 : PostState s2 s3) : PostState s1 s3 := by
  obtain ⟨⟨i1, d1, hi1, hd1, hp1⟩, ht1, hc1, hn1⟩ := h12
  obtain ⟨⟨i2, d2, hi2, hd2, hp2⟩, ht2, hc2, hn2⟩ := h23
  refine ⟨⟨i1 ++ i2, d1 ++ d2, ?_, ?_, ?_⟩, ht2.trans ht1, hc2.trans hc1,
    hn2.trans hn1⟩
  · rw [hi2, hi1, List.append_assoc]
  · rw [hd2, hd1, List.append_assoc]
  · rw [List.map_append, List.map_append]
    exact hp1.append hp2

theorem hasIdent_mono {st st' : EmitState} (h : PostState st st') (r : String)
    (hr : hasIdent st r) : hasIdent st' r := by
  obtain ⟨⟨i1, d1, hi1, _, _⟩, _, _, _⟩ := h
  unfold hasIdent at *
  rw [hi1, alookup_append]
  cases hx : alookup st.idents r with
  | some v => simp [Option.orElse]
  | none => rw [hx] at hr; simp at hr

theorem mem_setAdd (l : List String) (r x : String) :
    x ∈ setAdd l r ↔ x ∈ l ∨ x = r := by
  unfold setAdd
  split
  · next h =>
    constructor
    · exact Or.inl
    · rintro (hx | rfl)
      · exact hx
      · simpa using h
  · simp

theorem setDelete_setAdd (l : List String) (r : String) (h : r ∉ l) :
    setDelete (setAdd l r) r = l := by
  unfold setAdd setDelete
  split
  · next hc => exact absurd (by simpa using hc) h
  · rw [List.filter_append]
    have hall : ∀ a ∈ l, a ≠ r := fun a ha hh => h (hh ▸ ha)
    have h1 : l.filter (fun y => y ≠ r) = l := by
      rw [List.filter_eq_self]
      intro a ha
      simpa using hall a ha
    have h2 : List.filter (fun y => decide (y ≠ r)) [r] = [] := by simp
    rw [h1, h2, List.append_nil]

theorem fileIdentifier_false_snd (idents : List (String × String))
    (nc : StringCase) (tf : NameTransformer) (r : String) :
    (fileIdentifier idents nc tf r false).2 = idents := by
  unfold fileIdentifier
  cases alookup idents r <;> simp

theorem fileIdentifier_false_name (idents : List (String × String))
    (nc : StringCase) (tf : NameTransformer) (r : String) :
    (fileIdentifier idents nc tf r false).1.name = (alookup idents r).getD "" := by
  unfold fileIdentifier
  cases alookup idents r <;> simp

theorem fileIdentifier_true_existing (idents : List (String × String))
    (nc : StringCase) (tf : NameTransformer) (r n : String)
    (h : alookup idents r = some n) :
    fileIdentifier idents nc tf r true = ({ name := n, created := false }, idents) := by
  unfold fileIdentifier
  rw [h]

theorem fileIdentifier_true_fresh (idents : List (String × String))
    (nc : StringCase) (tf : NameTransformer) (r : String)
    (h : alookup idents r = none) :
    fileIdentifier idents nc tf r true =
      ({ name := deriveIdentifierName nc tf r (idents.map Prod.snd), created := true },
        idents ++ [(r, deriveIdentifierName nc tf r (idents.map Prod.snd))]) := by
  unfold fileIdentifier
  rw [h]
  rfl

theorem emitEntry_none (identArg : Option Identifier) (st0 : EmitState) :
    emitEntry none identArg st0 = (identArg, st0) := rfl

theorem emitEntry_some_existing (st0 : EmitState) (r n : String)
    (h : alookup st0.idents r = some n) :
    emitEntry (some r) none st0 =
      (some { name := n, created := false },
        { st0 with circularReferenceTracker := setAdd st0.circularReferenceTracker r }) := by
  unfold emitEntry
  simp only [fileIdentifier_true_existing st0.idents st0.nameCase st0.nameTransformer r n h]

theorem emitEntry_some_fresh (st0 : EmitState) (r : String)
    (h : alookup st0.idents r = none) :
    emitEntry (some r) none st0 =
      (some { name := deriveIdentifierName st0.nameCase st0.nameTransformer r
                (st0.idents.map Prod.snd), created := true },
        { st0 with
          circularReferenceTracker := setAdd st0.circularReferenceTracker r,
          idents := st0.idents ++
            [(r, deriveIdentifierName st0.nameCase st0.nameTransformer r
              (st0.idents.map Prod.snd))] }) := by
  unfold emitEntry
  simp only [fileIdentifier_true_fresh st0.idents st0.nameCase st0.nameTransformer r h]

theorem deduplicateSchema_items (s : SchemaObject) :
    (deduplicateSchema s).items = s.items.map dedupItems := by
  obtain ⟨c⟩ := s
  rfl

theorem deduplicateSchema_logicalOperator (s : SchemaObject) :
    (deduplicateSchema s).logicalOperator = s.logicalOperator := by
  obtain ⟨c⟩ := s
  rfl

theorem deduplicateSchema_ref (s : SchemaObject) :
    (deduplicateSchema s).ref = s.ref := by
  obtain ⟨c⟩ := s
  rfl

theorem deduplicateSchema_type (s : SchemaObject) :
    (deduplicateSchema s).type = s.type := by
  obtain ⟨c⟩ := s
  rfl

theorem mem_attach_flatMap {α β : Type} (l : List α) (f : (x : {a : α // a ∈ l}) → List β)
    (g : α → List β) (hfg : ∀ x, f x = g x.1) (b : β) :
    (b ∈ l.attach.flatMap f) ↔ ∃ a ∈ l, b ∈ g a := by
  rw [List.mem_flatMap]
  constructor
  · rintro ⟨x, _, hb⟩
    exact ⟨x.1, x.2, by rwa [hfg] at hb⟩
  · rintro ⟨a, ha, hb⟩
    exact ⟨⟨a, ha⟩, List.mem_attach _ _, by rwa [hfg]⟩

theorem directRefs_ref (s : SchemaObject) (r : String) (h : s.ref = some r) :
    directRefs s = [r] := by
  rw [directRefs, h]

theorem mem_directRefs_array (s : SchemaObject) (l : List SchemaObject)
    (h0 : s.ref = none) (h1 : s.type = some SchemaType.array)
    (h2 : s.items = some l) (r : String) :
    r ∈ directRefs s ↔ ∃ a ∈ dedupItems l, r ∈ directRefs a := by
  rw [directRefs, h0, h1, h2]
  exact mem_attach_flatMap _ _ directRefs (fun x => rfl) r

theorem directRefs_array_no_items (s : SchemaObject)
    (h0 : s.ref = none) (h1 : s.type = some SchemaType.array)
    (h2 : s.items = none) :
    directRefs s = [] := by
  conv_lhs => rw [directRefs, h0, h1]
  rw [show (match h : s.items with
      | none => ([] : List String)
      | some l => (dedupItems l).attach.flatMap fun x => directRefs x.1) = [] from ?_]
  · split
    · rfl
    · next l heq => rw [heq] at h2; cases h2

theorem mem_directRefs_object (s : SchemaObject)
    (h0 : s.ref = none) (h1 : s.type = some SchemaType.object) (r : String) :
    r ∈ directRefs s ↔ ∃ kv ∈ s.properties, r ∈ directRefs kv.2 := by
  rw [directRefs, h0, h1]
  exact mem_attach_flatMap _ _ (fun (kv : String × SchemaObject) => directRefs kv.2)
    (fun x => rfl) r

theorem directRefs_other (s : SchemaObject) (t : SchemaType)
    (h0 : s.ref = none) (h1 : s.type = some t)
    (ht : t ≠ SchemaType.array ∧ t ≠ SchemaType.object ∧ t ≠ SchemaType.tuple) :
    directRefs s = [] := by
  rw [directRefs, h0, h1]
  obtain ⟨ha, hb, hc⟩ := ht
  cases t <;> simp_all

theorem mem_directRefs_tuple_items (s : SchemaObject) (l : List SchemaObject)
    (h0 : s.ref = none) (h1 : s.type = some SchemaType.tuple)
    (hc : ∀ vs, s.const ≠ some (Json.arr vs)) (h2 : s.items = some l) (r : String) :
    r ∈ directRefs s ↔ ∃ a ∈ l, r ∈ directRefs a := by
  conv_lhs => rw [directRefs, h0, h1]
  rw [show (match s.const with
      | some (Json.arr _) => ([] : List String)
      | _ =>
        match h : s.items with
        | none => []
        | some l => l.attach.flatMap fun x => directRefs x.1) =
      l.attach.flatMap (fun x => directRefs x.1) from ?_]
  · exact mem_attach_flatMap _ _ directRefs (fun x => rfl) r
  · split
    · next vs heq => exact absurd heq (hc vs)
    · split
      · next heq => rw [heq] at h2; cases h2
      · next ll heq =>
        rw [heq] at h2
        injection h2 with h2
        subst h2
        rfl

theorem directRefs_tuple_const (s : SchemaObject) (vs : List Json)
    (h0 : s.ref = none) (h1 : s.type = some SchemaType.tuple)
    (hc : s.const = some (Json.arr vs)) :
    directRefs s = [] := by
  conv_lhs => rw [directRefs, h0, h1]
  rw [hc]

theorem directRefs_tuple_no_items (s : SchemaObject)
    (h0 : s.ref = none) (h1 : s.type = some SchemaType.tuple)
    (h2 : s.items = none) :
    directRefs s = [] := by
  conv_lhs => rw [directRefs, h0, h1]
  rw [show (match s.const with
      | some (Json.arr _) => ([] : List String)
      | _ =>
        match h : s.items with
        | none => []
        | some l => l.attach.flatMap fun x => directRefs x.1) = [] from ?_]
  · split
    · rfl
    · split
      · rfl
      · next ll heq => rw [heq] at h2; cases h2

theorem mem_directRefs_composite (s : SchemaObject) (l : List SchemaObject)
    (h0 : s.ref = none) (h1 : s.type = none) (h2 : s.items = some l) (r : String) :
    r ∈ directRefs s ↔ ∃ a ∈ dedupItems l, r ∈ directRefs a := by
  rw [directRefs, h0, h1, h2]
  exact mem_attach_flatMap _ _ directRefs (fun x => rfl) r

theorem directRefs_none (s : SchemaObject)
    (h0 : s.ref = none) (h1 : s.type = none) (h2 : s.items = none) :
    directRefs s = [] := by
  rw [directRefs, h0, h1, h2]

theorem finishEmit_snd (refOpt : Option String) (identifier : Option Identifier)
    (opt : Bool) (schema : SchemaObject) (anyType : Option String) (e : Expr)
    (st : EmitState) :
    (finishEmit refOpt identifier opt schema anyType e st).2 =
      { st with
        circularReferenceTracker := finishTracker refOpt st.circularReferenceTracker,
        decls := st.decls ++ finishDecls identifier st.hasCircularReference anyType
          (finishExpr opt schema e) } := rfl

theorem finishEmit_fst (refOpt : Option String) (identifier : Option Identifier)
    (opt : Bool) (schema : SchemaObject) (anyType : Option String) (e : Expr)
    (st : EmitState) :
    (finishEmit refOpt identifier opt schema anyType e st).1 =
      finishExpr opt schema e := rfl

theorem finishDecls_none (hc : Bool) (anyType : Option String) (e : Expr) :
    finishDecls none hc anyType e = [] := rfl

theorem finishDecls_not_created (id : Identifier) (hc : Bool)
    (anyType : Option String) (e : Expr) (h : id.created = false) :
    finishDecls (some id) hc anyType e = [] := by
  unfold finishDecls
  simp [h]

theorem finishDecls_created (id : Identifier) (hc : Bool)
    (anyType : Option String) (e : Expr) (hn : id.name ≠ "") (h : id.created = true) :
    finishDecls (some id) hc anyType e =
      [{ name := id.name, expr := e,
         typeName := if hc then some (anyType.getD "ZodTypeAny") else none }] := by
  unfold finishDecls
  simp [h, hn]

theorem alookup_mem {β : Type} (l : List (String × β)) (k : String) (v : β)
    (h : alookup l k = some v) : (k, v) ∈ l := by
  induction l with
  | nil => simp [alookup] at h
  | cons hd tl ih =>
    obtain ⟨k0, v0⟩ := hd
    by_cases hk : k0 = k
    · subst hk
      have hv : some v0 = some v := by simpa [alookup] using h
      injection hv with hv
      subst hv
      exact List.mem_cons_self _ _
    · have h2 : alookup tl k = some v := by simpa [alookup, hk] using h
      exact List.mem_cons_of_mem _ (ih h2)

theorem mem_setDelete {l : List String} {r x : String}
    (h : x ∈ setDelete l r) : x ∈ l :=
  List.mem_of_mem_filter h

theorem mem_setDelete_iff (l : List String) (r x : String) :
    x ∈ setDelete l r ↔ x ∈ l ∧ x ≠ r := by
  unfold setDelete
  rw [List.mem_filter]
  simp

theorem alookup_concat_ne {β : Type} (l : List (String × β)) (r r1 : String)
    (nm : β) (h : r1 ≠ r) : alookup (l ++ [(r, nm)]) r1 = alookup l r1 := by
  rw [alookup_append]
  cases hl : alookup l r1 with
  | some w => simp [Option.orElse]
  | none =>
    have hrr : ¬(r = r1) := fun hh => h hh.symm
    have : alookup [(r, nm)] r1 = none := by
      simp [alookup, hrr]
    simp [this, Option.orElse]

theorem alookup_concat_self {β : Type} (l : List (String × β)) (r : String)
    (nm : β) (h : alookup l r = none) :
    alookup (l ++ [(r, nm)]) r = some nm := by
  rw [alookup_append, h]
  simp [alookup, Option.orElse]

/-- Invariant statement for `schemaToZodSchema` at a given fuel: for every
call without a pre-made identifier whose supplied `$ref` is not already on
the tracker and is consistent with the graph, an `ok` result evolves the
state by `PostState`, preserves well-formedness, creates identifiers for
all directly visited `$ref`s and for the supplied one, and preserves the
closure invariant. -/
abbrev SInv (g : IRGraph) (cfg : PluginConfig) (fuel : Nat) : Prop :=
  ∀ refOpt opt schema st v st',
    PreState st →
    (∀ r, refOpt = some r → r ∉ st.circularReferenceTracker) →
    schemaToZodSchema fuel g cfg refOpt none opt schema st = ERes.ok v st' →
    PostState st st' ∧ PreState st' ∧
    (∀ r' ∈ directRefs schema, hasIdent st' r') ∧
    (∀ r, refOpt = some r → hasIdent st' r) ∧
    ((∀ r s, refOpt = some r → alookup g r = some s → s = schema) →
      Closed g st → Closed g st')

/-- Invariant statement for `schemaToZodSchemaBody`. -/
abbrev BInv (g : IRGraph) (cfg : PluginConfig) (fuel : Nat) : Prop :=
  ∀ schema st v st',
    PreState st →
    schemaToZodSchemaBody fuel g cfg schema st = ERes.ok v st' →
    PostState st st' ∧ PreState st' ∧
    (∀ r' ∈ directRefs schema, hasIdent st' r') ∧
    (Closed g st → Closed g st')

/-- Invariant statement for `schemaTypeToZodSchema`. -/
abbrev TInv (g : IRGraph) (cfg : PluginConfig) (fuel : Nat) : Prop :=
  ∀ schema st v st',
    PreState st → schema.ref = none →
    schemaTypeToZodSchema fuel g cfg schema st = ERes.ok v st' →
    PostState st st' ∧ PreState st' ∧
    (∀ r' ∈ directRefs schema, hasIdent st' r') ∧
    (Closed g st → Closed g st')

/-- Invariant statement for `arrayTypeToZodSchema`. -/
abbrev AInv (g : IRGraph) (cfg : PluginConfig) (fuel : Nat) : Prop :=
  ∀ schema st v st',
    PreState st → schema.ref = none → schema.type = some SchemaType.array →
    arrayTypeToZodSchema fuel g cfg schema st = ERes.ok v st' →
    PostState st st' ∧ PreState st' ∧
    (∀ r' ∈ directRefs schema, hasIdent st' r') ∧
    (Closed g st → Closed g st')

/-- Invariant statement for `objectTypeToZodSchema`. -/
abbrev OInv (g : IRGraph) (cfg : PluginConfig) (fuel : Nat) : Prop :=
  ∀ schema st v st',
    PreState st → schema.ref = none → schema.type = some SchemaType.object →
    objectTypeToZodSchema fuel g cfg schema st = ERes.ok v st' →
    PostState st st' ∧ PreState st' ∧
    (∀ r' ∈ directRefs schema, hasIdent st' r') ∧
    (Closed g st → Closed g st')

/-- Invariant statement for `tupleTypeToZodSchema`. -/
abbrev UInv (g : IRGraph) (cfg : PluginConfig) (fuel : Nat) : Prop :=
  ∀ schema st v st',
    PreState st → schema.ref = none → schema.type = some SchemaType.tuple →
    tupleTypeToZodSchema fuel g cfg schema st = ERes.ok v st' →
    PostState st st' ∧ PreState st' ∧
    (∀ r' ∈ directRefs schema, hasIdent st' r') ∧
    (Closed g st → Closed g st')

/-- Invariant statement for `emitList`. -/
abbrev LInv (g : IRGraph) (cfg : PluginConfig) (fuel : Nat) : Prop :=
  ∀ items st v st',
    PreState st →
    emitList fuel g cfg items st = ERes.ok v st' →
    PostState st st' ∧ PreState st' ∧
    (∀ r', (∃ a ∈ items, r' ∈ directRefs a) → hasIdent st' r') ∧
    (Closed g st → Closed g st')

/-- Invariant statement for `emitProperties`. -/
abbrev PInv (g : IRGraph) (cfg : PluginConfig) (fuel : Nat) : Prop :=
  ∀ required props st v st',
    PreState st →
    emitProperties fuel g cfg required props st = ERes.ok v st' →
    PostState st st' ∧ PreState st' ∧
    (∀ r', (∃ kv ∈ props, r' ∈ directRefs kv.2) → hasIdent st' r') ∧
    (Closed g st → Closed g st')

/-- Conclusion bundle for the subroutines with no traversed `$ref`s. -/
theorem leafConclusion (g : IRGraph) (schema : SchemaObject) (st : EmitState)
    (t : SchemaType) (hPre : PreState st) (href : schema.ref = none)
    (hty : schema.type = some t)
    (ht : t ≠ SchemaType.array ∧ t ≠ SchemaType.object ∧ t ≠ SchemaType.tuple) :
    PostState st st ∧ PreState st ∧
    (∀ r' ∈ directRefs schema, hasIdent st r') ∧
    (Closed g st → Closed g st) := by
  refine ⟨PostState.refl st, hPre, ?_, fun h => h⟩
  rw [directRefs_other schema t href hty ht]
  intro r' hr'
  simp at hr'

/-- The emitter's state and file invariants: one induction over the fuel
covering all mutually recursive functions.  For every call that returns
`ok`:

* identifiers and declarations are append-only and the new declarations'
  names are a permutation of the newly created identifiers' names (so each
  newly created component yields exactly one declaration) — `PostState`;
* the circular-reference tracker is restored to its value at entry
  (`PostState` again);
* well-formedness (`PreState`) is preserved;
* every `$ref` the traversal meets directly gets an identifier;
* the closure invariant (`Closed`) is preserved. -/
theorem emitInvariants (g : IRGraph) (cfg : PluginConfig) : ∀ fuel : Nat,
    SInv g cfg fuel ∧ BInv g cfg fuel ∧ TInv g cfg fuel ∧ AInv g cfg fuel ∧
    OInv g cfg fuel ∧ UInv g cfg fuel ∧ LInv g cfg fuel ∧ PInv g cfg fuel := by
  intro fuel
  induction fuel with
  | zero =>
    exact ⟨(fun _ _ _ _ _ _ _ _ hstep => by cases hstep),
      (fun _ _ _ _ _ hstep => by cases hstep),
      (fun _ _ _ _ _ _ hstep => by cases hstep),
      (fun _ _ _ _ _ _ _ hstep => by cases hstep),
      (fun _ _ _ _ _ _ _ hstep => by cases hstep),
      (fun _ _ _ _ _ _ _ hstep => by cases hstep),
      (fun _ _ _ _ _ hstep => by cases hstep),
      (fun _ _ _ _ _ _ hstep => by cases hstep)⟩
  | succ fuel ih =>
    obtain ⟨ihS, ihB, ihT, ihA, ihO, ihU, ihL, ihP⟩ := ih
    refine ⟨?_, ?_, ?_, ?_, ?_, ?_, ?_, ?_⟩
    · -- schemaToZodSchema
      intro refOpt opt schema st0 v st' hPre hTr hstep
      simp only [schemaToZodSchema] at hstep
      cases refOpt with
      | none =>
        simp only [emitEntry_none] at hstep
        cases hB : schemaToZodSchemaBody fuel g cfg schema st0 with
        | ok body st1 =>
          rw [hB] at hstep
          simp only [ERes.andThen] at hstep
          injection hstep with hv hst
          subst hv
          subst hst
          have HB := ihB schema st0 body st1 hPre hB
          obtain ⟨⟨ids, bdecls, hi, hd, hp⟩, htr, hcase, htf⟩ := HB.1
          refine ⟨⟨⟨ids, bdecls, hi, ?_, hp⟩, htr, hcase, htf⟩,
            HB.2.1, HB.2.2.1, (fun r hr => by cases hr), (fun _ => HB.2.2.2)⟩
          show st1.decls ++ finishDecls none st1.hasCircularReference body.2.1
            (finishExpr opt body.1 body.2.2) = st0.decls ++ bdecls
          rw [finishDecls_none, List.append_nil, hd]
        | refNotFound rr => rw [hB] at hstep; cases hstep
        | jsError => rw [hB] at hstep; cases hstep
        | outOfFuel => rw [hB] at hstep; cases hstep
      | some r =>
        have hTrR : r ∉ st0.circularReferenceTracker := hTr r rfl
        cases hid : alookup st0.idents r with
        | some n =>
          simp only [emitEntry_some_existing st0 r n hid] at hstep
          have hPreE : PreState { st0 with
              circularReferenceTracker := setAdd st0.circularReferenceTracker r } := by
            refine ⟨hPre.1, hPre.2.1, ?_⟩
            intro r1 hr1
            rcases (mem_setAdd st0.circularReferenceTracker r r1).mp hr1 with hin | rfl
            · exact hPre.2.2 r1 hin
            · unfold hasIdent
              rw [hid]
              rfl
          cases hB : schemaToZodSchemaBody fuel g cfg schema { st0 with
              circularReferenceTracker := setAdd st0.circularReferenceTracker r } with
          | ok body st1 =>
            rw [hB] at hstep
            simp only [ERes.andThen] at hstep
            injection hstep with hv hst
            subst hv
            subst hst
            have HB := ihB schema _ body st1 hPreE hB
            have htrE : st1.circularReferenceTracker =
                setAdd st0.circularReferenceTracker r := HB.1.2.1
            have hkey : finishTracker (some r) st1.circularReferenceTracker =
                st0.circularReferenceTracker := by
              unfold finishTracker
              rw [htrE]
              exact setDelete_setAdd _ _ hTrR
            have hre : hasIdent st1 r := hasIdent_mono HB.1 r (by
              unfold hasIdent
              rw [show ({ st0 with
                    circularReferenceTracker := setAdd st0.circularReferenceTracker r } :
                  EmitState).idents = st0.idents from rfl, hid]
              rfl)
            obtain ⟨⟨ids, bdecls, hi, hd, hp⟩, htr, hcase, htf⟩ := HB.1
            refine ⟨⟨⟨ids, bdecls, hi, ?_, hp⟩, hkey, hcase, htf⟩,
              ⟨HB.2.1.1, HB.2.1.2.1, ?_⟩, HB.2.2.1,
              (fun r1 hr1 => by injection hr1 with hrr; subst hrr; exact hre), ?_⟩
            · show st1.decls ++ finishDecls (some { name := n, created := false })
                st1.hasCircularReference body.2.1
                (finishExpr opt body.1 body.2.2) = st0.decls ++ bdecls
              rw [finishDecls_not_created _ _ _ _ rfl, List.append_nil, hd]
            · intro r1 hr1
              have hr1' : r1 ∈ st1.circularReferenceTracker := mem_setDelete hr1
              exact HB.2.1.2.2 r1 hr1'
            · intro hCons hC
              have hCE : Closed g { st0 with
                  circularReferenceTracker := setAdd st0.circularReferenceTracker r } := by
                intro r1 h1 h2 s1 hg1 r2 hr2
                have h2' : r1 ∉ st0.circularReferenceTracker := by
                  intro hin
                  exact h2 ((mem_setAdd _ _ _).mpr (Or.inl hin))
                exact hC r1 h1 h2' s1 hg1 r2 hr2
              have hC1 : Closed g st1 := HB.2.2.2 hCE
              intro r1 h1 h2 s1 hg1 r2 hr2
              rw [show ((finishEmit (some r)
                  (some { name := n, created := false }) opt body.1 body.2.1 body.2.2
                  st1).2).circularReferenceTracker =
                  finishTracker (some r) st1.circularReferenceTracker from rfl,
                hkey] at h2
              by_cases hr1r : r1 = r
              · subst hr1r
                have hs1 : s1 = schema := hCons r1 s1 rfl hg1
                subst hs1
                exact HB.2.2.1 r2 hr2
              · have h2'' : r1 ∉ st1.circularReferenceTracker := by
                  rw [htrE]
                  intro hin
                  rcases (mem_setAdd _ _ _).mp hin with hin | rfl
                  · exact h2 hin
                  · exact hr1r rfl
                exact hC1 r1 h1 h2'' s1 hg1 r2 hr2
          | refNotFound rr => rw [hB] at hstep; cases hstep
          | jsError => rw [hB] at hstep; cases hstep
          | outOfFuel => rw [hB] at hstep; cases hstep
        | none =>
          simp only [emitEntry_some_fresh st0 r hid] at hstep
          have hnm := deriveIdentifierName_spec st0.nameCase st0.nameTransformer r
            (st0.idents.map Prod.snd)
          have hPreE : PreState { st0 with
              circularReferenceTracker := setAdd st0.circularReferenceTracker r,
              idents := st0.idents ++
                [(r, deriveIdentifierName st0.nameCase st0.nameTransformer r
                  (st0.idents.map Prod.snd))] } := by
            refine ⟨?_, ?_, ?_⟩
            · intro p hq
              rcases List.mem_append.mp hq with hin | hin
              · exact hPre.1 p hin
              · rcases List.mem_singleton.mp hin with rfl
                exact hnm.2
            · rw [show (st0.idents ++
                  [(r, deriveIdentifierName st0.nameCase st0.nameTransformer r
                    (st0.idents.map Prod.snd))]).map Prod.snd =
                  st0.idents.map Prod.snd ++
                  [deriveIdentifierName st0.nameCase st0.nameTransformer r
                    (st0.idents.map Prod.snd)] from by rw [List.map_append]; rfl]
              rw [List.nodup_append]
              exact ⟨hPre.2.1, List.nodup_singleton _, by
                intro a ha hb
                rcases List.mem_singleton.mp hb with rfl
                exact hnm.1 ha⟩
            · intro r1 hr1
              rcases (mem_setAdd st0.circularReferenceTracker r r1).mp hr1 with hin | rfl
              · have := hPre.2.2 r1 hin
                unfold hasIdent at this ⊢
                rw [alookup_append]
                cases hx : alookup st0.idents r1 with
                | some w => simp [Option.orElse]
                | none => rw [hx] at this; simp at this
              · unfold hasIdent
                rw [alookup_concat_self st0.idents r1 _ hid]
                rfl
          cases hB : schemaToZodSchemaBody fuel g cfg schema { st0 with
              circularReferenceTracker := setAdd st0.circularReferenceTracker r,
              idents := st0.idents ++
                [(r, deriveIdentifierName st0.nameCase st0.nameTransformer r
                  (st0.idents.map Prod.snd))] } with
          | ok body st1 =>
            rw [hB] at hstep
            simp only [ERes.andThen] at hstep
            injection hstep with hv hst
            subst hv
            subst hst
            have HB := ihB schema _ body st1 hPreE hB
            have htrE : st1.circularReferenceTracker =
                setAdd st0.circularReferenceTracker r := HB.1.2.1
            have hkey : finishTracker (some r) st1.circularReferenceTracker =
                st0.circularReferenceTracker := by
              unfold finishTracker
              rw [htrE]
              exact setDelete_setAdd _ _ hTrR
            have hre : hasIdent st1 r := hasIdent_mono HB.1 r (by
              unfold hasIdent
              rw [show ({ st0 with
                  circularReferenceTracker := setAdd st0.circularReferenceTracker r,
                  idents := st0.idents ++
                    [(r, deriveIdentifierName st0.nameCase st0.nameTransformer r
                      (st0.idents.map Prod.snd))] } : EmitState).idents =
                st0.idents ++
                  [(r, deriveIdentifierName st0.nameCase st0.nameTransformer r
                    (st0.idents.map Prod.snd))] from rfl]
              rw [alookup_concat_self st0.idents r _ hid]
              rfl)
            obtain ⟨⟨ids, bdecls, hi, hd, hp⟩, htr, hcase, htf⟩ := HB.1
            refine ⟨⟨⟨(r, deriveIdentifierName st0.nameCase st0.nameTransformer r
                (st0.idents.map Prod.snd)) :: ids,
              bdecls ++ finishDecls
                (some ⟨deriveIdentifierName st0.nameCase st0.nameTransformer r
                  (st0.idents.map Prod.snd), true⟩)
                st1.hasCircularReference body.2.1
                (finishExpr opt body.1 body.2.2), ?_, ?_, ?_⟩,
              hkey, hcase, htf⟩,
              ⟨HB.2.1.1, HB.2.1.2.1, ?_⟩, HB.2.2.1,
              (fun r1 hr1 => by injection hr1 with hrr; subst hrr; exact hre), ?_⟩
            · show st1.idents = st0.idents ++ _
              rw [hi]
              rw [show ({ st0 with
                  circularReferenceTracker := setAdd st0.circularReferenceTracker r,
                  idents := st0.idents ++
                    [(r, deriveIdentifierName st0.nameCase st0.nameTransformer r
                      (st0.idents.map Prod.snd))] } : EmitState).idents =
                st0.idents ++
                  [(r, deriveIdentifierName st0.nameCase st0.nameTransformer r
                    (st0.idents.map Prod.snd))] from rfl]
              rw [List.append_assoc]
              rfl
            · show st1.decls ++ finishDecls
                (some ⟨deriveIdentifierName st0.nameCase st0.nameTransformer r
                  (st0.idents.map Prod.snd), true⟩)
                st1.hasCircularReference body.2.1
                (finishExpr opt body.1 body.2.2) = st0.decls ++ _
              rw [hd]
              rw [show ({ st0 with
                  circularReferenceTracker := setAdd st0.circularReferenceTracker r,
                  idents := st0.idents ++
                    [(r, deriveIdentifierName st0.nameCase st0.nameTransformer r
                      (st0.idents.map Prod.snd))] } : EmitState).decls =
                st0.decls from rfl]
              rw [List.append_assoc]
            · rw [finishDecls_created _ _ _ _ hnm.2 rfl]
              rw [List.map_append, List.map_cons]
              refine List.Perm.trans (List.Perm.append hp (List.Perm.refl _)) ?_
              exact List.perm_append_comm
            · intro r1 hr1
              have hr1' : r1 ∈ st1.circularReferenceTracker := mem_setDelete hr1
              exact HB.2.1.2.2 r1 hr1'
            · intro hCons hC
              have hCE : Closed g { st0 with
                  circularReferenceTracker := setAdd st0.circularReferenceTracker r,
                  idents := st0.idents ++
                    [(r, deriveIdentifierName st0.nameCase st0.nameTransformer r
                      (st0.idents.map Prod.snd))] } := by
                intro r1 h1 h2 s1 hg1 r2 hr2
                have hr1r : r1 ≠ r := by
                  intro hh
                  subst hh
                  exact h2 ((mem_setAdd _ _ _).mpr (Or.inr rfl))
                have h2' : r1 ∉ st0.circularReferenceTracker := by
                  intro hin
                  exact h2 ((mem_setAdd _ _ _).mpr (Or.inl hin))
                have h1' : hasIdent st0 r1 := by
                  unfold hasIdent at h1 ⊢
                  rwa [show ({ st0 with
                      circularReferenceTracker := setAdd st0.circularReferenceTracker r,
                      idents := st0.idents ++
                        [(r, deriveIdentifierName st0.nameCase st0.nameTransformer r
                          (st0.idents.map Prod.snd))] } : EmitState).idents =
                    st0.idents ++
                      [(r, deriveIdentifierName st0.nameCase st0.nameTransformer r
                        (st0.idents.map Prod.snd))] from rfl,
                    alookup_concat_ne st0.idents r r1 _ hr1r] at h1
                have hgot := hC r1 h1' h2' s1 hg1 r2 hr2
                unfold hasIdent at hgot ⊢
                rw [alookup_append]
                cases hx : alookup st0.idents r2 with
                | some w => simp [Option.orElse]
                | none => rw [hx] at hgot; simp at hgot
              have hC1 : Closed g st1 := HB.2.2.2 hCE
              intro r1 h1 h2 s1 hg1 r2 hr2
              rw [show ((finishEmit (some r)
                  (some ⟨deriveIdentifierName st0.nameCase st0.nameTransformer r
                    (st0.idents.map Prod.snd), true⟩) opt body.1 body.2.1
                  body.2.2 st1).2).circularReferenceTracker =
                  finishTracker (some r) st1.circularReferenceTracker from rfl,
                hkey] at h2
              by_cases hr1r : r1 = r
              · subst hr1r
                have hs1 : s1 = schema := hCons r1 s1 rfl hg1
                subst hs1
                exact HB.2.2.1 r2 hr2
              · have h2'' : r1 ∉ st1.circularReferenceTracker := by
                  rw [htrE]
                  intro hin
                  rcases (mem_setAdd _ _ _).mp hin with hin | rfl
                  · exact h2 hin
                  · exact hr1r rfl
                exact hC1 r1 h1 h2'' s1 hg1 r2 hr2
          | refNotFound rr => rw [hB] at hstep; cases hstep
          | jsError => rw [hB] at hstep; cases hstep
          | outOfFuel => rw [hB] at hstep; cases hstep
    · -- schemaToZodSchemaBody
      intro schema st v st' hPre hstep
      simp only [schemaToZodSchemaBody] at hstep
      cases href : schema.ref with
      | some r =>
        rw [href] at hstep
        dsimp only at hstep
        cases hid : alookup st.idents r with
        | some n =>
          have hn : (fileIdentifier st.idents st.nameCase st.nameTransformer r false).1.name = n := by
            rw [fileIdentifier_false_name, hid]
            rfl
          have hne : ¬((fileIdentifier st.idents st.nameCase st.nameTransformer r false).1.name = "") := by
            rw [hn]
            exact hPre.1 (r, n) (alookup_mem st.idents r n hid)
          rw [if_neg hne] at hstep
          have hrefs : ∀ r' ∈ directRefs schema, hasIdent st r' := by
            rw [directRefs_ref schema r href]
            intro r' hr'
            rcases List.mem_singleton.mp hr' with rfl
            unfold hasIdent
            rw [hid]
            rfl
          cases hcirc : st.circularReferenceTracker.contains r with
          | true =>
            simp only [hcirc, if_true] at hstep
            injection hstep with hv hst
            subst hv
            subst hst
            exact ⟨⟨⟨[], [], by simp, by simp, List.Perm.refl _⟩, rfl, rfl, rfl⟩,
              hPre, hrefs, fun h => h⟩
          | false =>
            simp only [hcirc, Bool.false_eq_true, if_false] at hstep
            injection hstep with hv hst
            subst hv
            subst hst
            exact ⟨PostState.refl st, hPre, hrefs, fun h => h⟩
        | none =>
          have hne : (fileIdentifier st.idents st.nameCase st.nameTransformer r false).1.name = "" := by
            rw [fileIdentifier_false_name, hid]
            rfl
          rw [if_pos hne] at hstep
          cases hres : resolveIrRef g r with
          | none => rw [hres] at hstep; cases hstep
          | some refSchema =>
            rw [hres] at hstep
            dsimp only at hstep
            cases hrec : schemaToZodSchema fuel g cfg (some r) none false refSchema st with
            | ok inlined st2 =>
              rw [hrec] at hstep
              simp only [ERes.andThen] at hstep
              have hTrS : ∀ r0, (some r : Option String) = some r0 →
                  r0 ∉ st.circularReferenceTracker := by
                intro r0 hr0 hmem
                injection hr0 with hrr
                subst hrr
                have hS := hPre.2.2 r hmem
                unfold hasIdent at hS
                rw [hid] at hS
                simp at hS
              have hConsS : ∀ r0 s0, (some r : Option String) = some r0 →
                  alookup g r0 = some s0 → s0 = refSchema := by
                intro r0 s0 hr0 hs0
                injection hr0 with hrr
                subst hrr
                unfold resolveIrRef at hres
                rw [hres] at hs0
                injection hs0 with hs0
                exact hs0.symm
              have HS := ihS (some r) false refSchema st inlined st2 hPre hTrS hrec
              have hident2 : hasIdent st2 r := HS.2.2.2.1 r rfl
              obtain ⟨n2, hid2⟩ := Option.isSome_iff_exists.mp hident2
              have hn2 : (fileIdentifier st2.idents st2.nameCase st2.nameTransformer r false).1.name = n2 := by
                rw [fileIdentifier_false_name, hid2]
                rfl
              have hne2 : ¬((fileIdentifier st2.idents st2.nameCase st2.nameTransformer r false).1.name = "") := by
                rw [hn2]
                exact HS.2.1.1 (r, n2) (alookup_mem st2.idents r n2 hid2)
              rw [if_neg hne2] at hstep
              have hrefs2 : ∀ r' ∈ directRefs schema, hasIdent st2 r' := by
                rw [directRefs_ref schema r href]
                intro r' hr'
                rcases List.mem_singleton.mp hr' with rfl
                exact hident2
              cases hcirc : st.circularReferenceTracker.contains r with
              | true =>
                simp only [hcirc, if_true] at hstep
                injection hstep with hv hst
                subst hv
                subst hst
                exact ⟨HS.1, HS.2.1, hrefs2, HS.2.2.2.2 hConsS⟩
              | false =>
                simp only [hcirc, Bool.false_eq_true, if_false] at hstep
                injection hstep with hv hst
                subst hv
                subst hst
                exact ⟨HS.1, HS.2.1, hrefs2, HS.2.2.2.2 hConsS⟩
            | refNotFound rr => rw [hrec] at hstep; cases hstep
            | jsError => rw [hrec] at hstep; cases hstep
            | outOfFuel => rw [hrec] at hstep; cases hstep
      | none =>
        rw [href] at hstep
        dsimp only at hstep
        cases hty : schema.type with
        | some t =>
          rw [hty] at hstep
          dsimp only at hstep
          cases hT : schemaTypeToZodSchema fuel g cfg schema st with
          | ok z st1 =>
            rw [hT] at hstep
            simp only [ERes.andThen] at hstep
            injection hstep with hv hst
            subst hv
            subst hst
            exact ihT schema st z st1 hPre href hT
          | refNotFound rr => rw [hT] at hstep; cases hstep
          | jsError => rw [hT] at hstep; cases hstep
          | outOfFuel => rw [hT] at hstep; cases hstep
        | none =>
          rw [hty] at hstep
          dsimp only at hstep
          cases hitems : schema.items with
          | some l =>
            rw [hitems] at hstep
            dsimp only at hstep
            have hd : (deduplicateSchema schema).items = some (dedupItems l) := by
              rw [deduplicateSchema_items, hitems]
              rfl
            rw [hd] at hstep
            dsimp only at hstep
            cases hL : emitList fuel g cfg (dedupItems l) st with
            | ok es st1 =>
              rw [hL] at hstep
              simp only [ERes.andThen] at hstep
              have H := ihL (dedupItems l) st es st1 hPre hL
              have hrefs : ∀ r' ∈ directRefs schema, hasIdent st1 r' := by
                intro r' hr'
                exact H.2.2.1 r'
                  ((mem_directRefs_composite schema l href hty hitems r').mp hr')
              split at hstep
              · split at hstep
                · split at hstep
                  · injection hstep with hv hst
                    subst hv
                    subst hst
                    exact ⟨H.1, H.2.1, hrefs, H.2.2.2⟩
                  · injection hstep with hv hst
                    subst hv
                    subst hst
                    exact ⟨H.1, H.2.1, hrefs, H.2.2.2⟩
                · cases hstep
              · injection hstep with hv hst
                subst hv
                subst hst
                exact ⟨H.1, H.2.1, hrefs, H.2.2.2⟩
            | refNotFound rr => rw [hL] at hstep; cases hstep
            | jsError => rw [hL] at hstep; cases hstep
            | outOfFuel => rw [hL] at hstep; cases hstep
          | none =>
            rw [hitems] at hstep
            dsimp only at hstep
            cases hT : schemaTypeToZodSchema fuel g cfg
                (SchemaObject.mk { type := some SchemaType.unknown }) st with
            | ok z st1 =>
              rw [hT] at hstep
              simp only [ERes.andThen] at hstep
              injection hstep with hv hst
              subst hv
              subst hst
              have H := ihT (SchemaObject.mk { type := some SchemaType.unknown })
                st z st1 hPre rfl hT
              refine ⟨H.1, H.2.1, ?_, H.2.2.2⟩
              rw [directRefs_none schema href hty hitems]
              intro r' hr'
              simp at hr'
            | refNotFound rr => rw [hT] at hstep; cases hstep
            | jsError => rw [hT] at hstep; cases hstep
            | outOfFuel => rw [hT] at hstep; cases hstep
    · -- schemaTypeToZodSchema
      intro schema st v st' hPre href hstep
      simp only [schemaTypeToZodSchema] at hstep
      cases hty : schema.type with
      | none => rw [hty] at hstep; cases hstep
      | some t =>
        cases t with
        | array =>
          rw [hty] at hstep
          cases hA : arrayTypeToZodSchema fuel g cfg schema st with
          | ok e1 st1 =>
            rw [hA] at hstep
            simp only [ERes.andThen] at hstep
            injection hstep with hv hst
            subst hv
            subst hst
            exact ihA schema st e1 st1 hPre href hty hA
          | refNotFound rr => rw [hA] at hstep; cases hstep
          | jsError => rw [hA] at hstep; cases hstep
          | outOfFuel => rw [hA] at hstep; cases hstep
        | object =>
          rw [hty] at hstep
          exact ihO schema st v st' hPre href hty hstep
        | tuple =>
          rw [hty] at hstep
          cases hU : tupleTypeToZodSchema fuel g cfg schema st with
          | ok e1 st1 =>
            rw [hU] at hstep
            simp only [ERes.andThen] at hstep
            injection hstep with hv hst
            subst hv
            subst hst
            exact ihU schema st e1 st1 hPre href hty hU
          | refNotFound rr => rw [hU] at hstep; cases hstep
          | jsError => rw [hU] at hstep; cases hstep
          | outOfFuel => rw [hU] at hstep; cases hstep
        | boolean =>
          rw [hty] at hstep
          injection hstep with hv hst
          subst hv
          subst hst
          exact leafConclusion g schema st SchemaType.boolean hPre href hty
            ⟨by decide, by decide, by decide⟩
        | enum =>
          rw [hty] at hstep
          injection hstep with hv hst
          subst hv
          subst hst
          exact leafConclusion g schema st SchemaType.enum hPre href hty
            ⟨by decide, by decide, by decide⟩
        | integer =>
          rw [hty] at hstep
          injection hstep with hv hst
          subst hv
          subst hst
          exact leafConclusion g schema st SchemaType.integer hPre href hty
            ⟨by decide, by decide, by decide⟩
        | number =>
          rw [hty] at hstep
          injection hstep with hv hst
          subst hv
          subst hst
          exact leafConclusion g schema st SchemaType.number hPre href hty
            ⟨by decide, by decide, by decide⟩
        | never =>
          rw [hty] at hstep
          injection hstep with hv hst
          subst hv
          subst hst
          exact leafConclusion g schema st SchemaType.never hPre href hty
            ⟨by decide, by decide, by decide⟩
        | null =>
          rw [hty] at hstep
          injection hstep with hv hst
          subst hv
          subst hst
          exact leafConclusion g schema st SchemaType.null hPre href hty
            ⟨by decide, by decide, by decide⟩
        | string =>
          rw [hty] at hstep
          injection hstep with hv hst
          subst hv
          subst hst
          exact leafConclusion g schema st SchemaType.string hPre href hty
            ⟨by decide, by decide, by decide⟩
        | undefined =>
          rw [hty] at hstep
          injection hstep with hv hst
          subst hv
          subst hst
          exact leafConclusion g schema st SchemaType.undefined hPre href hty
            ⟨by decide, by decide, by decide⟩
        | unknown =>
          rw [hty] at hstep
          injection hstep with hv hst
          subst hv
          subst hst
          exact leafConclusion g schema st SchemaType.unknown hPre href hty
            ⟨by decide, by decide, by decide⟩
        | void =>
          rw [hty] at hstep
          injection hstep with hv hst
          subst hv
          subst hst
          exact leafConclusion g schema st SchemaType.void hPre href hty
            ⟨by decide, by decide, by decide⟩
    · -- arrayTypeToZodSchema
      intro schema st v st' hPre href hty hstep
      simp only [arrayTypeToZodSchema] at hstep
      cases hitems : schema.items with
      | none =>
        rw [hitems] at hstep
        injection hstep with hv hst
        subst hv
        subst hst
        refine ⟨PostState.refl st, hPre, ?_, fun h => h⟩
        rw [directRefs_array_no_items schema href hty hitems]
        intro r' hr'
        simp at hr'
      | some l =>
        rw [hitems] at hstep
        dsimp only at hstep
        have hd : (deduplicateSchema schema).items = some (dedupItems l) := by
          rw [deduplicateSchema_items, hitems]
          rfl
        rw [hd] at hstep
        dsimp only at hstep
        cases hL : emitList fuel g cfg (dedupItems l) st with
        | ok es st1 =>
          rw [hL] at hstep
          simp only [ERes.andThen] at hstep
          injection hstep with hv hst
          subst hv
          subst hst
          have H := ihL (dedupItems l) st es st1 hPre hL
          refine ⟨H.1, H.2.1, ?_, H.2.2.2⟩
          intro r' hr'
          exact H.2.2.1 r' ((mem_directRefs_array schema l href hty hitems r').mp hr')
        | refNotFound rr => rw [hL] at hstep; cases hstep
        | jsError => rw [hL] at hstep; cases hstep
        | outOfFuel => rw [hL] at hstep; cases hstep
    · -- objectTypeToZodSchema
      intro schema st v st' hPre href hty hstep
      simp only [objectTypeToZodSchema] at hstep
      cases hP : emitProperties fuel g cfg (schema.required.getD [])
          schema.properties st with
      | ok props st1 =>
        rw [hP] at hstep
        simp only [ERes.andThen] at hstep
        injection hstep with hv hst
        subst hv
        subst hst
        have H := ihP (schema.required.getD []) schema.properties st props st1 hPre hP
        refine ⟨H.1, H.2.1, ?_, H.2.2.2⟩
        intro r' hr'
        exact H.2.2.1 r' ((mem_directRefs_object schema href hty r').mp hr')
      | refNotFound rr => rw [hP] at hstep; cases hstep
      | jsError => rw [hP] at hstep; cases hstep
      | outOfFuel => rw [hP] at hstep; cases hstep
    · -- tupleTypeToZodSchema
      intro schema st v st' hPre href hty hstep
      simp only [tupleTypeToZodSchema] at hstep
      cases hc : schema.const with
      | some j =>
        cases j with
        | arr vs =>
          rw [hc] at hstep
          dsimp only at hstep
          injection hstep with hv hst
          subst hv
          subst hst
          refine ⟨PostState.refl st, hPre, ?_, fun h => h⟩
          rw [directRefs_tuple_const schema vs href hty hc]
          intro r' hr'
          simp at hr'
        | null =>
          rw [hc] at hstep
          dsimp only at hstep
          cases hL : emitList fuel g cfg (schema.items.getD []) st with
          | ok es st1 =>
            rw [hL] at hstep
            simp only [ERes.andThen] at hstep
            injection hstep with hv hst
            subst hv
            subst hst
            have H := ihL (schema.items.getD []) st es st1 hPre hL
            refine ⟨H.1, H.2.1, ?_, H.2.2.2⟩
            intro r' hr'
            cases hitems : schema.items with
            | none =>
              rw [directRefs_tuple_no_items schema href hty hitems] at hr'
              simp at hr'
            | some l =>
              have hmem := (mem_directRefs_tuple_items schema l href hty
                (fun vs2 hvs => by rw [hc] at hvs; cases hvs) hitems r').mp hr'
              refine H.2.2.1 r' ?_
              rw [show schema.items.getD [] = l from by simp [hitems]]
              exact hmem
          | refNotFound rr => rw [hL] at hstep; cases hstep
          | jsError => rw [hL] at hstep; cases hstep
          | outOfFuel => rw [hL] at hstep; cases hstep
        | bool bConst =>
          rw [hc] at hstep
          dsimp only at hstep
          cases hL : emitList fuel g cfg (schema.items.getD []) st with
          | ok es st1 =>
            rw [hL] at hstep
            simp only [ERes.andThen] at hstep
            injection hstep with hv hst
            subst hv
            subst hst
            have H := ihL (schema.items.getD []) st es st1 hPre hL
            refine ⟨H.1, H.2.1, ?_, H.2.2.2⟩
            intro r' hr'
            cases hitems : schema.items with
            | none =>
              rw [directRefs_tuple_no_items schema href hty hitems] at hr'
              simp at hr'
            | some l =>
              have hmem := (mem_directRefs_tuple_items schema l href hty
                (fun vs2 hvs => by rw [hc] at hvs; cases hvs) hitems r').mp hr'
              refine H.2.2.1 r' ?_
              rw [show schema.items.getD [] = l from by simp [hitems]]
              exact hmem
          | refNotFound rr => rw [hL] at hstep; cases hstep
          | jsError => rw [hL] at hstep; cases hstep
          | outOfFuel => rw [hL] at hstep; cases hstep
        | num nConst =>
          rw [hc] at hstep
          dsimp only at hstep
          cases hL : emitList fuel g cfg (schema.items.getD []) st with
          | ok es st1 =>
            rw [hL] at hstep
            simp only [ERes.andThen] at hstep
            injection hstep with hv hst
            subst hv
            subst hst
            have H := ihL (schema.items.getD []) st es st1 hPre hL
            refine ⟨H.1, H.2.1, ?_, H.2.2.2⟩
            intro r' hr'
            cases hitems : schema.items with
            | none =>
              rw [directRefs_tuple_no_items schema href hty hitems] at hr'
              simp at hr'
            | some l =>
              have hmem := (mem_directRefs_tuple_items schema l href hty
                (fun vs2 hvs => by rw [hc] at hvs; cases hvs) hitems r').mp hr'
              refine H.2.2.1 r' ?_
              rw [show schema.items.getD [] = l from by simp [hitems]]
              exact hmem
          | refNotFound rr => rw [hL] at hstep; cases hstep
          | jsError => rw [hL] at hstep; cases hstep
          | outOfFuel => rw [hL] at hstep; cases hstep
        | str sConst =>
          rw [hc] at hstep
          dsimp only at hstep
          cases hL : emitList fuel g cfg (schema.items.getD []) st with
          | ok es st1 =>
            rw [hL] at hstep
            simp only [ERes.andThen] at hstep
            injection hstep with hv hst
            subst hv
            subst hst
            have H := ihL (schema.items.getD []) st es st1 hPre hL
            refine ⟨H.1, H.2.1, ?_, H.2.2.2⟩
            intro r' hr'
            cases hitems : schema.items with
            | none =>
              rw [directRefs_tuple_no_items schema href hty hitems] at hr'
              simp at hr'
            | some l =>
              have hmem := (mem_directRefs_tuple_items schema l href hty
                (fun vs2 hvs => by rw [hc] at hvs; cases hvs) hitems r').mp hr'
              refine H.2.2.1 r' ?_
              rw [show schema.items.getD [] = l from by simp [hitems]]
              exact hmem
          | refNotFound rr => rw [hL] at hstep; cases hstep
          | jsError => rw [hL] at hstep; cases hstep
          | outOfFuel => rw [hL] at hstep; cases hstep
        | obj oConst =>
          rw [hc] at hstep
          dsimp only at hstep
          cases hL : emitList fuel g cfg (schema.items.getD []) st with
          | ok es st1 =>
            rw [hL] at hstep
            simp only [ERes.andThen] at hstep
            injection hstep with hv hst
            subst hv
            subst hst
            have H := ihL (schema.items.getD []) st es st1 hPre hL
            refine ⟨H.1, H.2.1, ?_, H.2.2.2⟩
            intro r' hr'
            cases hitems : schema.items with
            | none =>
              rw [directRefs_tuple_no_items schema href hty hitems] at hr'
              simp at hr'
            | some l =>
              have hmem := (mem_directRefs_tuple_items schema l href hty
                (fun vs2 hvs => by rw [hc] at hvs; cases hvs) hitems r').mp hr'
              refine H.2.2.1 r' ?_
              rw [show schema.items.getD [] = l from by simp [hitems]]
              exact hmem
          | refNotFound rr => rw [hL] at hstep; cases hstep
          | jsError => rw [hL] at hstep; cases hstep
          | outOfFuel => rw [hL] at hstep; cases hstep
      | none =>
        rw [hc] at hstep
        dsimp only at hstep
        cases hL : emitList fuel g cfg (schema.items.getD []) st with
        | ok es st1 =>
          rw [hL] at hstep
          simp only [ERes.andThen] at hstep
          injection hstep with hv hst
          subst hv
          subst hst
          have H := ihL (schema.items.getD []) st es st1 hPre hL
          refine ⟨H.1, H.2.1, ?_, H.2.2.2⟩
          intro r' hr'
          cases hitems : schema.items with
          | none =>
            rw [directRefs_tuple_no_items schema href hty hitems] at hr'
            simp at hr'
          | some l =>
            have hmem := (mem_directRefs_tuple_items schema l href hty
              (fun vs2 hvs => by rw [hc] at hvs; cases hvs) hitems r').mp hr'
            refine H.2.2.1 r' ?_
            rw [show schema.items.getD [] = l from by simp [hitems]]
            exact hmem
        | refNotFound rr => rw [hL] at hstep; cases hstep
        | jsError => rw [hL] at hstep; cases hstep
        | outOfFuel => rw [hL] at hstep; cases hstep
    · -- emitList
      intro items st v st' hPre hstep
      cases items with
      | nil =>
        simp only [emitList] at hstep
        cases hstep
        exact ⟨PostState.refl st, hPre, fun r' hr' => by simp at hr', fun h => h⟩
      | cons item rest =>
        simp only [emitList] at hstep
        cases hhead : schemaToZodSchema fuel g cfg none none false item st with
        | ok e st1 =>
          rw [hhead] at hstep
          simp only [ERes.andThen] at hstep
          cases htail : emitList fuel g cfg rest st1 with
          | ok es st2 =>
            rw [htail] at hstep
            simp only [ERes.andThen] at hstep
            injection hstep with hv hst
            subst hv
            subst hst
            have Hh := ihS none false item st e st1 hPre
              (fun r hr => by cases hr) hhead
            have Ht := ihL rest st1 es st2 Hh.2.1 htail
            refine ⟨Hh.1.trans Ht.1, Ht.2.1, ?_,
              fun hc => Ht.2.2.2 (Hh.2.2.2.2 (fun r s hr => by cases hr) hc)⟩
            rintro r' ⟨a, ha, hra⟩
            rcases List.mem_cons.mp ha with rfl | hmem
            · exact hasIdent_mono Ht.1 r' (Hh.2.2.1 r' hra)
            · exact Ht.2.2.1 r' ⟨a, hmem, hra⟩
          | refNotFound rr => rw [htail] at hstep; cases hstep
          | jsError => rw [htail] at hstep; cases hstep
          | outOfFuel => rw [htail] at hstep; cases hstep
        | refNotFound rr => rw [hhead] at hstep; cases hstep
        | jsError => rw [hhead] at hstep; cases hstep
        | outOfFuel => rw [hhead] at hstep; cases hstep
    · -- emitProperties
      intro required props st v st' hPre hstep
      cases props with
      | nil =>
        simp only [emitProperties] at hstep
        cases hstep
        exact ⟨PostState.refl st, hPre, fun r' hr' => by simp at hr', fun h => h⟩
      | cons kv rest =>
        obtain ⟨name, property⟩ := kv
        simp only [emitProperties] at hstep
        cases hhead : schemaToZodSchema fuel g cfg none none
            (!required.contains name) property st with
        | ok e st1 =>
          rw [hhead] at hstep
          simp only [ERes.andThen] at hstep
          cases htail : emitProperties fuel g cfg required rest st1 with
          | ok es st2 =>
            rw [htail] at hstep
            simp only [ERes.andThen] at hstep
            injection hstep with hv hst
            subst hv
            subst hst
            have Hh := ihS none (!required.contains name) property st e st1 hPre
              (fun r hr => by cases hr) hhead
            have Ht := ihP required rest st1 es st2 Hh.2.1 htail
            refine ⟨Hh.1.trans Ht.1, Ht.2.1, ?_,
              fun hc => Ht.2.2.2 (Hh.2.2.2.2 (fun r s hr => by cases hr) hc)⟩
            rintro r' ⟨a, ha, hra⟩
            rcases List.mem_cons.mp ha with rfl | hmem
            · exact hasIdent_mono Ht.1 r' (Hh.2.2.1 r' hra)
            · exact Ht.2.2.1 r' ⟨a, hmem, hra⟩
          | refNotFound rr => rw [htail] at hstep; cases hstep
          | jsError => rw [htail] at hstep; cases hstep
          | outOfFuel => rw [htail] at hstep; cases hstep
        | refNotFound rr => rw [hhead] at hstep; cases hstep
        | jsError => rw [hhead] at hstep; cases hstep
        | outOfFuel => rw [hhead] at hstep; cases hstep

/-! Fuel sufficiency: with enough fuel the emitter never returns
`ERes.outOfFuel`.  The measure charges five fuel units per `sizeOf` unit of
the schema in hand plus a reserve for every graph component that has no
identifier yet; jumping through a `$ref` creates the target's identifier
first, which releases that component's reserve. -/

/-- Fuel reserve of one graph component: enough to traverse its schema.
(`noncomputable` only because the derived `SizeOf` instance of the nested
inductive `SchemaObject` carries no compiler IR; the kernel still reduces
it on concrete inputs.) -/
noncomputable def keyWeight (g : IRGraph) (r : String) : Nat :=
  match alookup g r with
  | some s => 5 * sizeOf s + 6
  | none => 6

/-- The graph keys that have no identifier yet. -/
def uncreatedKeys (g : IRGraph) (idents : List (String × String)) :
    List String :=
  (List.map Prod.fst g).filter fun r => !(alookup idents r).isSome

/-- Total fuel reserve of the graph components without an identifier. -/
noncomputable def Phi (g : IRGraph) (idents : List (String × String)) : Nat :=
  ((uncreatedKeys g idents).map (keyWeight g)).sum

theorem Phi_append (g : IRGraph) (idents nw : List (String × String)) :
    Phi g (idents ++ nw) ≤ Phi g idents := by
  refine List.Sublist.sum_le_sum ?_ fun a _ => Nat.zero_le a
  refine List.Sublist.map (keyWeight g) ?_
  refine List.monotone_filter_right _ ?_
  intro r hr
  simp only [Bool.not_eq_true'] at hr ⊢
  cases hx : alookup idents r with
  | none => rfl
  | some v =>
    rw [alookup_append, hx] at hr
    simp [Option.orElse] at hr

theorem sum_filter_drop (w : String → Nat) (p q : String → Bool) (r : String)
    (hpr : p r = true) (hqr : q r = false)
    (hagree : ∀ k, ¬(k = r) → q k = p k) :
    ∀ ks : List String, r ∈ ks →
      w r + ((ks.filter q).map w).sum ≤ ((ks.filter p).map w).sum := by
  intro ks
  induction ks with
  | nil => intro h; cases h
  | cons k tl ih =>
    intro hr
    by_cases hk : k = r
    · rw [hk]
      rw [List.filter_cons_of_pos hpr, List.filter_cons_of_neg (by simp [hqr])]
      simp only [List.map_cons, List.sum_cons]
      have hsub : ((tl.filter q).map w).sum ≤ ((tl.filter p).map w).sum := by
        refine List.Sublist.sum_le_sum ?_ fun a _ => Nat.zero_le a
        refine List.Sublist.map w ?_
        refine List.monotone_filter_right _ ?_
        intro a ha
        by_cases har : a = r
        · rw [har, hqr] at ha; cases ha
        · rw [hagree a har] at ha; exact ha
      omega
    · have hr' : r ∈ tl := by
        rcases List.mem_cons.mp hr with h1 | h1
        · exact absurd h1.symm hk
        · exact h1
      by_cases hp : p k = true
      · rw [List.filter_cons_of_pos hp,
          List.filter_cons_of_pos (by rw [hagree k hk]; exact hp)]
        simp only [List.map_cons, List.sum_cons]
        have := ih hr'
        omega
      · rw [List.filter_cons_of_neg (by rw [hagree k hk]; simpa using hp),
          List.filter_cons_of_neg (by simpa using hp)]
        exact ih hr'

/-- Creating the identifier of an uncreated graph component releases its
fuel reserve. -/
theorem Phi_drop (g : IRGraph) (idents : List (String × String)) (r n : String)
    (s : SchemaObject) (hg : alookup g r = some s)
    (hun : alookup idents r = none) :
    5 * sizeOf s + 6 + Phi g (idents ++ [(r, n)]) ≤ Phi g idents := by
  have hw : keyWeight g r = 5 * sizeOf s + 6 := by
    unfold keyWeight
    rw [hg]
  have hmem : r ∈ List.map Prod.fst g :=
    List.mem_map_of_mem Prod.fst (alookup_mem g r s hg)
  have hmain := sum_filter_drop (keyWeight g)
    (fun k => !(alookup idents k).isSome)
    (fun k => !(alookup (idents ++ [(r, n)]) k).isSome) r
    (by simp [hun])
    (by
      have : alookup (idents ++ [(r, n)]) r = some n := by
        rw [alookup_append, hun]
        simp [alookup, Option.orElse]
      simp [this])
    (fun k hk => by
      simp only []
      rw [alookup_concat_ne idents r k n hk])
    (List.map Prod.fst g) hmem
  rw [hw] at hmain
  unfold Phi uncreatedKeys
  omega

theorem sublist_sizeOf_le {l1 l2 : List SchemaObject} (h : l1.Sublist l2) :
    sizeOf l1 ≤ sizeOf l2 := by
  induction h with
  | slnil => exact le_refl _
  | cons a h ih => simp only [List.cons.sizeOf_spec]; omega
  | cons₂ a h ih => simp only [List.cons.sizeOf_spec]; omega

theorem dedupItems_sublist : ∀ l : List SchemaObject,
    (dedupItems l).Sublist l := by
  intro l
  induction l using dedupItems.induct with
  | case1 => simp [dedupItems]
  | case2 x xs ih =>
    rw [dedupItems]
    exact (ih.trans (List.filter_sublist xs)).cons₂ x

theorem one_le_sizeOf_schema (s : SchemaObject) : 1 ≤ sizeOf s := by
  obtain ⟨c⟩ := s
  simp only [SchemaObject.mk.sizeOf_spec]
  omega

/-- The entry steps preserve well-formedness of the state. -/
theorem preState_entry (refOpt : Option String) (st0 : EmitState)
    (hPre : PreState st0) : PreState (emitEntry refOpt none st0).2 := by
  cases refOpt with
  | none => exact hPre
  | some r =>
    cases hid : alookup st0.idents r with
    | some n =>
      rw [emitEntry_some_existing st0 r n hid]
      refine ⟨hPre.1, hPre.2.1, ?_⟩
      intro r1 hr1
      rcases (mem_setAdd st0.circularReferenceTracker r r1).mp hr1 with hin | rfl
      · exact hPre.2.2 r1 hin
      · unfold hasIdent
        rw [hid]
        rfl
    | none =>
      rw [emitEntry_some_fresh st0 r hid]
      have hnm := deriveIdentifierName_spec st0.nameCase st0.nameTransformer r
        (st0.idents.map Prod.snd)
      refine ⟨?_, ?_, ?_⟩
      · intro p hq
        rcases List.mem_append.mp hq with hin | hin
        · exact hPre.1 p hin
        · rcases List.mem_singleton.mp hin with rfl
          exact hnm.2
      · rw [show (st0.idents ++
            [(r, deriveIdentifierName st0.nameCase st0.nameTransformer r
              (st0.idents.map Prod.snd))]).map Prod.snd =
            st0.idents.map Prod.snd ++
            [deriveIdentifierName st0.nameCase st0.nameTransformer r
              (st0.idents.map Prod.snd)] from by rw [List.map_append]; rfl]
        rw [List.nodup_append]
        exact ⟨hPre.2.1, List.nodup_singleton _, by
          intro a ha hb
          rcases List.mem_singleton.mp hb with rfl
          exact hnm.1 ha⟩
      · intro r1 hr1
        rcases (mem_setAdd st0.circularReferenceTracker r r1).mp hr1 with hin | rfl
        · have := hPre.2.2 r1 hin
          unfold hasIdent at this ⊢
          rw [alookup_append]
          cases hx : alookup st0.idents r1 with
          | some w => simp [Option.orElse]
          | none => rw [hx] at this; simp at this
        · unfold hasIdent
          rw [alookup_concat_self st0.idents r1 _ hid]
          rfl

/-- The entry steps never enlarge the fuel reserve. -/
theorem Phi_entry_le (g : IRGraph) (refOpt : Option String) (st0 : EmitState) :
    Phi g (emitEntry refOpt none st0).2.idents ≤ Phi g st0.idents := by
  cases refOpt with
  | none => exact le_refl _
  | some r =>
    cases hid : alookup st0.idents r with
    | some n =>
      rw [emitEntry_some_existing st0 r n hid]
    | none =>
      rw [emitEntry_some_fresh st0 r hid]
      exact Phi_append g st0.idents _

theorem ERes.andThen_ne {α β : Type} (x : ERes α) (f : α → EmitState → ERes β)
    (hx : x ≠ ERes.outOfFuel)
    (hf : ∀ v st, x = ERes.ok v st → f v st ≠ ERes.outOfFuel) :
    x.andThen f ≠ ERes.outOfFuel := by
  cases x with
  | ok v st => exact hf v st rfl
  | refNotFound r => simp [ERes.andThen]
  | jsError => simp [ERes.andThen]
  | outOfFuel => exact absurd rfl hx

/-- Fuel-sufficiency statement for `schemaToZodSchema`: the bound is taken
at the post-entry state, where a supplied `$ref` already has its
identifier. -/
abbrev TermS (g : IRGraph) (cfg : PluginConfig) (fuel : Nat) : Prop :=
  ∀ refOpt opt schema st0,
    PreState (emitEntry refOpt none st0).2 →
    5 * sizeOf schema + 5 + Phi g (emitEntry refOpt none st0).2.idents ≤ fuel →
    schemaToZodSchema fuel g cfg refOpt none opt schema st0 ≠ ERes.outOfFuel

/-- Fuel-sufficiency statement for `schemaToZodSchemaBody`. -/
abbrev TermB (g : IRGraph) (cfg : PluginConfig) (fuel : Nat) : Prop :=
  ∀ schema st,
    PreState st →
    5 * sizeOf schema + 4 + Phi g st.idents ≤ fuel →
    schemaToZodSchemaBody fuel g cfg schema st ≠ ERes.outOfFuel

/-- Fuel-sufficiency statement for `schemaTypeToZodSchema`. -/
abbrev TermT (g : IRGraph) (cfg : PluginConfig) (fuel : Nat) : Prop :=
  ∀ schema st,
    PreState st →
    5 * sizeOf schema + 3 + Phi g st.idents ≤ fuel →
    schemaTypeToZodSchema fuel g cfg schema st ≠ ERes.outOfFuel

/-- Fuel-sufficiency statement for `arrayTypeToZodSchema`. -/
abbrev TermA (g : IRGraph) (cfg : PluginConfig) (fuel : Nat) : Prop :=
  ∀ schema st,
    PreState st →
    5 * sizeOf schema + 2 + Phi g st.idents ≤ fuel →
    arrayTypeToZodSchema fuel g cfg schema st ≠ ERes.outOfFuel

/-- Fuel-sufficiency statement for `objectTypeToZodSchema`. -/
abbrev TermO (g : IRGraph) (cfg : PluginConfig) (fuel : Nat) : Prop :=
  ∀ schema st,
    PreState st →
    5 * sizeOf schema + 2 + Phi g st.idents ≤ fuel →
    objectTypeToZodSchema fuel g cfg schema st ≠ ERes.outOfFuel

/-- Fuel-sufficiency statement for `tupleTypeToZodSchema`. -/
abbrev TermU (g : IRGraph) (cfg : PluginConfig) (fuel : Nat) : Prop :=
  ∀ schema st,
    PreState st →
    5 * sizeOf schema + 2 + Phi g st.idents ≤ fuel →
    tupleTypeToZodSchema fuel g cfg schema st ≠ ERes.outOfFuel

/-- Fuel-sufficiency statement for `emitList`. -/
abbrev TermL (g : IRGraph) (cfg : PluginConfig) (fuel : Nat) : Prop :=
  ∀ items st,
    PreState st →
    5 * sizeOf items + 1 + Phi g st.idents ≤ fuel →
    emitList fuel g cfg items st ≠ ERes.outOfFuel

/-- Fuel-sufficiency statement for `emitProperties`. -/
abbrev TermP (g : IRGraph) (cfg : PluginConfig) (fuel : Nat) : Prop :=
  ∀ required props st,
    PreState st →
    5 * sizeOf props + 1 + Phi g st.idents ≤ fuel →
    emitProperties fuel g cfg required props st ≠ ERes.outOfFuel

/-- Fuel sufficiency of the whole emitter: one induction over the fuel.
Each call consumes at most five fuel units per `sizeOf` unit of its
argument, plus the reserve `Phi` for the graph components it may jump to
through a `$ref`. -/
theorem emitTerminates (g : IRGraph) (cfg : PluginConfig) : ∀ fuel : Nat,
    TermS g cfg fuel ∧ TermB g cfg fuel ∧ TermT g cfg fuel ∧ TermA g cfg fuel ∧
    TermO g cfg fuel ∧ TermU g cfg fuel ∧ TermL g cfg fuel ∧ TermP g cfg fuel := by
  intro fuel
  induction fuel with
  | zero =>
    exact ⟨(fun _ _ _ _ _ hb => absurd hb (by omega)),
      (fun _ _ _ hb => absurd hb (by omega)),
      (fun _ _ _ hb => absurd hb (by omega)),
      (fun _ _ _ hb => absurd hb (by omega)),
      (fun _ _ _ hb => absurd hb (by omega)),
      (fun _ _ _ hb => absurd hb (by omega)),
      (fun _ _ _ hb => absurd hb (by omega)),
      (fun _ _ _ _ hb => absurd hb (by omega))⟩
  | succ fuel ih =>
    obtain ⟨ihS, ihB, ihT, ihA, ihO, ihU, ihL, ihP⟩ := ih
    refine ⟨?_, ?_, ?_, ?_, ?_, ?_, ?_, ?_⟩
    · -- schemaToZodSchema
      intro refOpt opt schema st0 hPreE hb
      simp only [schemaToZodSchema]
      refine ERes.andThen_ne _ _ ?_ ?_
      · exact ihB schema _ hPreE (by omega)
      · intro v st1 _
        intro h
        cases h
    · -- schemaToZodSchemaBody
      intro schema st hPre hb
      simp only [schemaToZodSchemaBody]
      cases href : schema.ref with
      | some r =>
        dsimp only
        cases hid : alookup st.idents r with
        | some n =>
          have hn : (fileIdentifier st.idents st.nameCase st.nameTransformer r
              false).1.name = n := by
            rw [fileIdentifier_false_name, hid]
            rfl
          have hne : ¬((fileIdentifier st.idents st.nameCase st.nameTransformer r
              false).1.name = "") := by
            rw [hn]
            exact hPre.1 (r, n) (alookup_mem st.idents r n hid)
          rw [if_neg hne]
          split
          · intro h; cases h
          · intro h; cases h
        | none =>
          have hne : (fileIdentifier st.idents st.nameCase st.nameTransformer r
              false).1.name = "" := by
            rw [fileIdentifier_false_name, hid]
            rfl
          rw [if_pos hne]
          cases hres : resolveIrRef g r with
          | none =>
            dsimp only
            intro h
            cases h
          | some refSchema =>
            dsimp only
            refine ERes.andThen_ne _ _ ?_ ?_
            · refine ihS (some r) false refSchema st (preState_entry (some r) st hPre) ?_
              have hPhi : 5 * sizeOf refSchema + 6 +
                  Phi g (st.idents ++
                    [(r, deriveIdentifierName st.nameCase st.nameTransformer r
                      (st.idents.map Prod.snd))]) ≤ Phi g st.idents :=
                Phi_drop g st.idents r _ refSchema hres hid
              rw [emitEntry_some_fresh st r hid]
              dsimp only
              omega
            · intro v st1 _
              dsimp only
              split
              · intro h; cases h
              · split
                · intro h; cases h
                · intro h; cases h
      | none =>
        dsimp only
        cases hty : schema.type with
        | some t =>
          dsimp only
          refine ERes.andThen_ne _ _ (ihT schema st hPre (by omega)) ?_
          intro v st1 _
          intro h
          cases h
        | none =>
          dsimp only
          cases hitems : schema.items with
          | some l =>
            dsimp only
            have hit2 : (deduplicateSchema schema).items = some (dedupItems l) := by
              rw [deduplicateSchema_items, hitems]
              rfl
            rw [hit2]
            dsimp only
            refine ERes.andThen_ne _ _ ?_ ?_
            · refine ihL (dedupItems l) st hPre ?_
              have h1 : sizeOf (dedupItems l) ≤ sizeOf l :=
                sublist_sizeOf_le (dedupItems_sublist l)
              have h2 : sizeOf l < sizeOf schema := sizeOf_items_lt schema l hitems
              omega
            · intro v st1 _
              dsimp only
              split
              · split
                · split
                  · intro h; cases h
                  · intro h; cases h
                · intro h; cases h
              · intro h; cases h
          | none =>
            dsimp only
            refine ERes.andThen_ne _ _ ?_ ?_
            · obtain ⟨k, rfl⟩ : ∃ k, fuel = k + 1 := ⟨fuel - 1, by omega⟩
              intro h
              rw [show schemaTypeToZodSchema (k + 1) g cfg
                  (SchemaObject.mk { type := some SchemaType.unknown }) st =
                  ERes.ok (none, unknownTypeToZodSchema
                    (SchemaObject.mk { type := some SchemaType.unknown })) st from rfl] at h
              cases h
            · intro v st1 _
              intro h
              cases h
    · -- schemaTypeToZodSchema
      intro schema st hPre hb
      simp only [schemaTypeToZodSchema]
      cases hty : schema.type with
      | some t =>
        cases t with
        | array =>
          dsimp only
          refine ERes.andThen_ne _ _ (ihA schema st hPre (by omega)) ?_
          intro v st1 _
          intro h
          cases h
        | object =>
          dsimp only
          exact ihO schema st hPre (by omega)
        | tuple =>
          dsimp only
          refine ERes.andThen_ne _ _ (ihU schema st hPre (by omega)) ?_
          intro v st1 _
          intro h
          cases h
        | boolean | enum | integer | number | never | null | string
        | undefined | unknown | void =>
          dsimp only
          intro h
          cases h
      | none =>
        dsimp only
        intro h
        cases h
    · -- arrayTypeToZodSchema
      intro schema st hPre hb
      simp only [arrayTypeToZodSchema]
      cases hitems : schema.items with
      | none =>
        dsimp only
        intro h
        cases h
      | some l =>
        dsimp only
        have hit2 : (deduplicateSchema schema).items = some (dedupItems l) := by
          rw [deduplicateSchema_items, hitems]
          rfl
        rw [hit2]
        dsimp only
        refine ERes.andThen_ne _ _ ?_ ?_
        · refine ihL (dedupItems l) st hPre ?_
          have h1 : sizeOf (dedupItems l) ≤ sizeOf l :=
            sublist_sizeOf_le (dedupItems_sublist l)
          have h2 : sizeOf l < sizeOf schema := sizeOf_items_lt schema l hitems
          omega
        · intro v st1 _
          intro h
          cases h
    · -- objectTypeToZodSchema
      intro schema st hPre hb
      simp only [objectTypeToZodSchema]
      refine ERes.andThen_ne _ _ ?_ ?_
      · refine ihP (schema.required.getD []) schema.properties st hPre ?_
        have h2 := sizeOf_properties_le schema
        omega
      · intro v st1 _
        intro h
        cases h
    · -- tupleTypeToZodSchema
      intro schema st hPre hb
      have hgetD : 5 * sizeOf (schema.items.getD []) + 1 + Phi g st.idents ≤ fuel := by
        cases hi : schema.items with
        | some l =>
          have h2 := sizeOf_items_lt schema l hi
          simp only [hi, Option.getD_some]
          omega
        | none =>
          have h1 := one_le_sizeOf_schema schema
          simp only [hi, Option.getD_none, List.nil.sizeOf_spec]
          omega
      have hcont : (emitList fuel g cfg (schema.items.getD []) st).andThen
          (fun tupleElements st1 =>
            ERes.ok (Expr.call (zMember "tuple") [Expr.arrayLit tupleElements]) st1) ≠
          ERes.outOfFuel := by
        refine ERes.andThen_ne _ _ (ihL _ st hPre hgetD) ?_
        intro v st1 _
        intro h
        cases h
      simp only [tupleTypeToZodSchema]
      cases hconst : schema.const with
      | none =>
        dsimp only
        exact hcont
      | some j =>
        cases j <;> dsimp only <;> first | (intro h; cases h) | exact hcont
    · -- emitList
      intro items st hPre hb
      cases items with
      | nil =>
        simp only [emitList]
        intro h
        cases h
      | cons item rest =>
        simp only [emitList]
        refine ERes.andThen_ne _ _ ?_ ?_
        · refine ihS none false item st hPre ?_
          rw [emitEntry_none]
          dsimp only
          have hsz : sizeOf (item :: rest) = 1 + sizeOf item + sizeOf rest := by
            simp
          omega
        · intro e st1 heq
          refine ERes.andThen_ne _ _ ?_ ?_
          · have HS := (emitInvariants g cfg fuel).1 none false item st e st1 hPre
              (fun r hr => by cases hr) heq
            have hPhi : Phi g st1.idents ≤ Phi g st.idents := by
              obtain ⟨⟨nids, ndecls, hi, _, _⟩, _, _, _⟩ := HS.1
              rw [hi]
              exact Phi_append g st.idents nids
            refine ihL rest st1 HS.2.1 ?_
            have hsz : sizeOf (item :: rest) = 1 + sizeOf item + sizeOf rest := by
              simp
            omega
          · intro es st2 _
            intro h
            cases h
    · -- emitProperties
      intro required props st hPre hb
      cases props with
      | nil =>
        simp only [emitProperties]
        intro h
        cases h
      | cons kv rest =>
        obtain ⟨name, property⟩ := kv
        simp only [emitProperties]
        refine ERes.andThen_ne _ _ ?_ ?_
        · refine ihS none (!(required.contains name)) property st hPre ?_
          rw [emitEntry_none]
          dsimp only
          have hsz : sizeOf ((name, property) :: rest) =
              1 + (1 + sizeOf name + sizeOf property) + sizeOf rest := by
            simp
          omega
        · intro pe st1 heq
          refine ERes.andThen_ne _ _ ?_ ?_
          · have HS := (emitInvariants g cfg fuel).1 none (!(required.contains name))
              property st pe st1 hPre (fun r hr => by cases hr) heq
            have hPhi : Phi g st1.idents ≤ Phi g st.idents := by
              obtain ⟨⟨nids, ndecls, hi, _, _⟩, _, _, _⟩ := HS.1
              rw [hi]
              exact Phi_append g st.idents nids
            refine ihP required rest st1 HS.2.1 ?_
            have hsz : sizeOf ((name, property) :: rest) =
                1 + (1 + sizeOf name + sizeOf property) + sizeOf rest := by
              simp
            omega
          · intro pes st2 _
            intro h
            cases h

/-- Fuel sufficiency of a top-level `schemaToZodSchema` call, with the
bound taken at the pre-entry state. -/
theorem schemaToZodSchema_total (g : IRGraph) (cfg : PluginConfig)
    (refOpt : Option String) (opt : Bool) (schema : SchemaObject)
    (st0 : EmitState) (fuel : Nat) (hPre : PreState st0)
    (hfuel : 5 * sizeOf schema + 5 + Phi g st0.idents ≤ fuel) :
    schemaToZodSchema fuel g cfg refOpt none opt schema st0 ≠ ERes.outOfFuel := by
  refine (emitTerminates g cfg fuel).1 refOpt opt schema st0
    (preState_entry refOpt st0 hPre) ?_
  have := Phi_entry_le g refOpt st0
  omega

/-! Concrete scenario (spec scenario S2): the two-component cycle
`A.properties.b = $ref B`, `B.properties.a = $ref A`, emitted from a fresh
state.  Used by the witnesses below. -/

/-- A fresh emitter state (empty file, empty tracker). -/
def wEmpty : EmitState :=
  { circularReferenceTracker := [], hasCircularReference := false,
    nameCase := StringCase.preserve, nameTransformer := NameTransformer.fn id,
    idents := [], decls := [] }

theorem wEmptyPre : PreState wEmpty :=
  ⟨fun p hp => absurd hp (List.not_mem_nil p), List.nodup_nil,
    fun r hr => absurd hr (List.not_mem_nil r)⟩

def wSchemaA : SchemaObject :=
  SchemaObject.mk
    { type := some SchemaType.object,
      properties := [("b", SchemaObject.mk { ref := some "#/components/schemas/B" })],
      required := some [] }

def wSchemaB : SchemaObject :=
  SchemaObject.mk
    { type := some SchemaType.object,
      properties := [("a", SchemaObject.mk { ref := some "#/components/schemas/A" })],
      required := some [] }

def wGraphAB : IRGraph :=
  [("#/components/schemas/A", wSchemaA), ("#/components/schemas/B", wSchemaB)]

def wCfg : PluginConfig := { metadata := false }

/-- The emission of component `A` of the cycle. -/
def wCycleRun : ERes Expr :=
  schemaToZodSchema 1000000 wGraphAB wCfg (some "#/components/schemas/A") none
    false wSchemaA wEmpty

def wCycleV : Expr :=
  match wCycleRun with
  | ERes.ok v _ => v
  | _ => Expr.ident ""

def wCycleSt : EmitState :=
  match wCycleRun with
  | ERes.ok _ st => st
  | _ => wEmpty

/-- C1: on every IR schema graph, possibly cyclic, `schemaToZodSchema`
terminates (with fuel at least linear in the schema size plus the reserve
of uncreated graph components it can jump to, it never runs out) and emits
each component's declaration exactly once (the new declarations' names are
a permutation of the newly created identifiers' names, all identifier
names stay pairwise distinct, and the set of created components stays
closed under direct `$ref`s, so every component reachable from the root is
created and declared once); meeting a `$ref` that is on the
`circularReferenceTracker` and already named emits `z.lazy(() => name)`
and sets `state.hasCircularReference` to `true`, while a named `$ref` off
the tracker emits the bare name, in both cases without recursing. -/
theorem schemaToZodSchema_cycle_emission (g : IRGraph) (cfg : PluginConfig)
    (fuel : Nat) (refOpt : Option String) (opt : Bool) (schema : SchemaObject)
    (st0 : EmitState)
    (hPre : PreState st0)
    (hTr : ∀ r, refOpt = some r → r ∉ st0.circularReferenceTracker) :
    (5 * sizeOf schema + 5 + Phi g st0.idents ≤ fuel →
      schemaToZodSchema fuel g cfg refOpt none opt schema st0 ≠ ERes.outOfFuel) ∧
    (∀ v st',
      schemaToZodSchema fuel g cfg refOpt none opt schema st0 = ERes.ok v st' →
      (∃ newIds newDecls,
        st'.idents = st0.idents ++ newIds ∧
        st'.decls = st0.decls ++ newDecls ∧
        (newDecls.map Decl.name).Perm (newIds.map Prod.snd)) ∧
      (st'.idents.map Prod.snd).Nodup ∧
      ((∀ r s, refOpt = some r → alookup g r = some s → s = schema) →
        Closed g st0 → Closed g st')) ∧
    (∀ s2 st r n, s2.ref = some r → alookup st.idents r = some n → n ≠ "" →
      r ∈ st.circularReferenceTracker →
      schemaToZodSchemaBody (fuel + 1) g cfg s2 st =
        ERes.ok (s2, none, lazyOf n) { st with hasCircularReference := true }) ∧
    (∀ s2 st r n, s2.ref = some r → alookup st.idents r = some n → n ≠ "" →
      r ∉ st.circularReferenceTracker →
      schemaToZodSchemaBody (fuel + 1) g cfg s2 st =
        ERes.ok (s2, none, Expr.ident n) st) := by
  refine ⟨fun hfuel => schemaToZodSchema_total g cfg refOpt opt schema st0 fuel
    hPre hfuel, ?_, ?_, ?_⟩
  · intro v st' hok
    have H := (emitInvariants g cfg fuel).1 refOpt opt schema st0 v st' hPre hTr hok
    exact ⟨H.1.1, H.2.1.2.1, H.2.2.2.2⟩
  · intro s2 st r n hr2 hrid hne hmem
    simp only [schemaToZodSchemaBody]
    rw [hr2]
    dsimp only
    have hn : (fileIdentifier st.idents st.nameCase st.nameTransformer r
        false).1.name = n := by
      rw [fileIdentifier_false_name, hrid]
      rfl
    rw [if_neg (by rw [hn]; exact hne)]
    have hcirc : st.circularReferenceTracker.contains r = true := by
      simpa using hmem
    rw [if_pos hcirc, hn]
  · intro s2 st r n hr2 hrid hne hmem
    simp only [schemaToZodSchemaBody]
    rw [hr2]
    dsimp only
    have hn : (fileIdentifier st.idents st.nameCase st.nameTransformer r
        false).1.name = n := by
      rw [fileIdentifier_false_name, hrid]
      rfl
    rw [if_neg (by rw [hn]; exact hne)]
    have hcirc : ¬(st.circularReferenceTracker.contains r = true) := by
      simpa using hmem
    rw [if_neg hcirc, hn]

theorem schemaToZodSchema_cycle_emission_witness :
    PreState wEmpty ∧
    5 * sizeOf wSchemaA + 5 + Phi wGraphAB wEmpty.idents ≤ 1000000 ∧
    wCycleRun ≠ ERes.outOfFuel ∧
    (wCycleSt.idents.map Prod.snd).Nodup := by
  have H := schemaToZodSchema_cycle_emission wGraphAB wCfg 1000000
    (some "#/components/schemas/A") false wSchemaA wEmpty wEmptyPre
    (fun r _ hm => absurd hm (List.not_mem_nil r))
  refine ⟨wEmptyPre, by decide, ?_, ?_⟩
  · intro hcon
    exact H.1 (by decide) hcon
  · exact ((H.2.1 wCycleV wCycleSt rfl).2.1)

/-- The bound refinements `numberTypeToZodSchema` appends (`exclusive*`
winning over the inclusive bounds). -/
def boundTags (schema : SchemaObject) : List String :=
  (match schema.exclusiveMinimum with
   | some _ => ["gt"]
   | none =>
     match schema.minimum with
     | some _ => ["gte"]
     | none => []) ++
  (match schema.exclusiveMaximum with
   | some _ => ["lt"]
   | none =>
     match schema.maximum with
     | some _ => ["lte"]
     | none => [])

/-- C10: for every integer-typed schema that is not an `int64` and has no
numeric `const`, the emitted base expression is `z.number().int()` with
the `.int()` refinement directly after `z.number()` and before any bound
refinements; an `int64` integer instead routes through
`z.coerce.bigint()` and its emission never contains `.int()`. -/
theorem numberTypeToZodSchema_int_refinement (schema : SchemaObject)
    (hty : schema.type = some SchemaType.integer)
    (hconst : ∀ n : Int, schema.const ≠ some (Json.num n)) :
    (schema.format ≠ some "int64" →
      Expr.spine (numberTypeToZodSchema schema) =
        ["number", "int"] ++ boundTags schema) ∧
    (schema.format = some "int64" →
      Expr.spine (numberTypeToZodSchema schema) =
        ["bigint"] ++ boundTags schema ∧
      "int" ∉ Expr.spine (numberTypeToZodSchema schema)) := by
  constructor
  · intro hfmt
    have hbig : (schema.type = some SchemaType.integer &&
        schema.format = some "int64") = false := by
      simp [hty, hfmt]
    unfold numberTypeToZodSchema
    rw [hbig]
    cases hc : schema.const with
    | some j =>
      cases j with
      | num n => exact absurd hc (hconst n)
      | null | bool b | str s | arr es | obj fs =>
        dsimp only
        simp only [hty]
        cases hem : schema.exclusiveMinimum <;>
          cases hm : schema.minimum <;>
          cases heM : schema.exclusiveMaximum <;>
          cases hM : schema.maximum <;>
          simp [Expr.spine, boundTags, hem, hm, heM, hM]
    | none =>
      dsimp only
      simp only [hty]
      cases hem : schema.exclusiveMinimum <;>
        cases hm : schema.minimum <;>
        cases heM : schema.exclusiveMaximum <;>
        cases hM : schema.maximum <;>
        simp [Expr.spine, boundTags, hem, hm, heM, hM]
  · intro hfmt
    have hbig : (schema.type = some SchemaType.integer &&
        schema.format = some "int64") = true := by
      simp [hty, hfmt]
    unfold numberTypeToZodSchema
    rw [hbig]
    cases hc : schema.const with
    | some j =>
      cases j with
      | num n => exact absurd hc (hconst n)
      | null | bool b | str s | arr es | obj fs =>
        dsimp only
        cases hem : schema.exclusiveMinimum <;>
          cases hm : schema.minimum <;>
          cases heM : schema.exclusiveMaximum <;>
          cases hM : schema.maximum <;>
          simp [Expr.spine, boundTags, hem, hm, heM, hM]
    | none =>
      dsimp only
      cases hem : schema.exclusiveMinimum <;>
        cases hm : schema.minimum <;>
        cases heM : schema.exclusiveMaximum <;>
        cases hM : schema.maximum <;>
        simp [Expr.spine, boundTags, hem, hm, heM, hM]

def wC10Schema : SchemaObject :=
  SchemaObject.mk { type := some SchemaType.integer, minimum := some 5 }

theorem numberTypeToZodSchema_int_refinement_witness :
    wC10Schema.type = some SchemaType.integer ∧
    (∀ n : Int, wC10Schema.const ≠ some (Json.num n)) ∧
    Expr.spine (numberTypeToZodSchema wC10Schema) =
      ["number", "int"] ++ boundTags wC10Schema := by
  refine ⟨rfl, ?_, ?_⟩
  · intro n h
    cases h
  · exact (numberTypeToZodSchema_int_refinement wC10Schema rfl
      (fun n h => by cases h)).1 (fun h => by cases h)

/-! The request-bundle synthesis of `operationToZodSchema` (mutation.ts
lines 954-1103) and the parameter merge of the dialect parsers. -/

/-- Model of `IR.ParameterObject` (the fields the plugin reads). -/
structure ParameterObject where
  name : String
  required : Bool := false
  schema : SchemaObject

/-- The grouped parameters of an operation, each group a name-keyed
mapping. -/
structure ParametersObject where
  cookie : Option (List (String × ParameterObject)) := none
  header : Option (List (String × ParameterObject)) := none
  path : Option (List (String × ParameterObject)) := none
  query : Option (List (String × ParameterObject)) := none

/-- Model of `IR.RequestBodyObject` (the fields the plugin reads). -/
structure RequestBodyObject where
  required : Bool := false
  schema : SchemaObject

/-- Model of `IR.OperationObject` (the fields `operationToZodSchema` reads). -/
structure OperationObject where
  id : String
  body : Option RequestBodyObject := none
  parameters : Option ParametersObject := none

/-- Modelled from the spec: `hasParameterGroupObjectRequired` of
`ir/parameter.ts` (imported at mutation.ts line 141 but not in the given
tree) — whether some member of the parameter group is required. -/
def hasParameterGroupObjectRequired
    (group : Option (List (String × ParameterObject))) : Bool :=
  match group with
  | some ps => ps.any fun kv => kv.2.required
  | none => false

def neverSchema : SchemaObject :=
  SchemaObject.mk { type := some SchemaType.never }

/-- The object schema synthesized for one nonempty parameter group. -/
def groupObjectSchema (props : List (String × SchemaObject))
    (reqd : List String) : SchemaObject :=
  SchemaObject.mk
    { type := some SchemaType.object, properties := props,
      required := some reqd }

/-- Model of `groupPropertyProperties[parameter.name] = parameter.schema` over the
group (JS object assignment: last same-name write wins in place). -/
def groupProps (ps : List (String × ParameterObject)) :
    List (String × SchemaObject) :=
  ps.foldl (fun acc kv => setKey acc kv.2.name kv.2.schema) []

/-- The group's `required` pushes. -/
def groupRequired (ps : List (String × ParameterObject)) : List String :=
  (ps.filter fun kv => kv.2.required).map fun kv => kv.2.name

/-- The property the bundle stores for one group: the group object when
the collected properties are nonempty, else a `never` schema. -/
def groupProperty (group : Option (List (String × ParameterObject))) :
    SchemaObject :=
  match group with
  | some ps =>
    if (groupProps ps).length = 0 then neverSchema
    else groupObjectSchema (groupProps ps) (groupRequired ps)
  | none => neverSchema

/-- The request-bundle schema `operationToZodSchema` synthesizes (source
lines 966-1073).  Note line 982: the header branch passes
`operation.parameters.path` — not `.header` — to
`hasParameterGroupObjectRequired`. -/
def requestBundleSchema (operation : OperationObject) : SchemaObject :=
  let headerGroup := match operation.parameters with
    | some p => p.header
    | none => none
  let pathGroup := match operation.parameters with
    | some p => p.path
    | none => none
  let queryGroup := match operation.parameters with
    | some p => p.query
    | none => none
  let requiredProperties :=
    (match operation.body with
     | some b => if b.required then ["body"] else []
     | none => []) ++
    (if headerGroup.isSome && hasParameterGroupObjectRequired pathGroup then
      ["headers"] else []) ++
    (if pathGroup.isSome && hasParameterGroupObjectRequired pathGroup then
      ["path"] else []) ++
    (if queryGroup.isSome && hasParameterGroupObjectRequired queryGroup then
      ["query"] else [])
  SchemaObject.mk
    { type := some SchemaType.object,
      properties :=
        [("body", match operation.body with
          | some b => b.schema
          | none => neverSchema),
         ("headers", groupProperty headerGroup),
         ("path", groupProperty pathGroup),
         ("query", groupProperty queryGroup)],
      required := some requiredProperties }

def wC3Param : ParameterObject :=
  { name := "version", required := true,
    schema := SchemaObject.mk { type := some SchemaType.string } }

def wC3Op : OperationObject :=
  { id := "op1", parameters := some { header := some [("version", wC3Param)] } }

/-- C3: the required flags are NOT honored for the headers group —
mutation.ts line 982 passes `operation.parameters.path` to
`hasParameterGroupObjectRequired` inside the header branch.  For an
operation whose only parameter is a required header parameter, the
synthesized bundle's headers group object itself requires the parameter,
yet the outer required set is empty (the claim requires it to contain
`"headers"`). -/
theorem operationToZodSchema_headers_required_code_bug :
    hasParameterGroupObjectRequired (some [("version", wC3Param)]) = true ∧
    alookup (requestBundleSchema wC3Op).properties "headers" =
      some (groupObjectSchema [("version", wC3Param.schema)] ["version"]) ∧
    alookup (requestBundleSchema wC3Op).properties "path" = some neverSchema ∧
    (requestBundleSchema wC3Op).required = some [] :=
  ⟨rfl, rfl, rfl, rfl⟩

/-- Modelled from the spec (§4.E step 2): merge one name-keyed parameter
group of a path item with the method-level one; method wins on a name
collision. -/
def mergeParameterGroup
    (base overlay : Option (List (String × ParameterObject))) :
    Option (List (String × ParameterObject)) :=
  match base, overlay with
  | none, o => o
  | some bs, none => some bs
  | some bs, some os => some (os.foldl (fun acc kv => setKey acc kv.1 kv.2) bs)

/-- Modelled from the spec (§4.E step 2): the parsed operation's grouped
parameters are the path-item parameters merged with the method
parameters. -/
def mergeOperationParameters (pathItemParams methodParams : Option ParametersObject) :
    Option ParametersObject :=
  match pathItemParams, methodParams with
  | none, m => m
  | some p, none => some p
  | some p, some m =>
    some { cookie := mergeParameterGroup p.cookie m.cookie,
           header := mergeParameterGroup p.header m.header,
           path := mergeParameterGroup p.path m.path,
           query := mergeParameterGroup p.query m.query }

theorem alookup_eq_none_of_not_mem {β : Type} (l : List (String × β))
    (k : String) (h : k ∉ l.map Prod.fst) : alookup l k = none := by
  induction l with
  | nil => rfl
  | cons kv rest ih =>
    simp only [List.map_cons, List.mem_cons] at h
    push_neg at h
    have hne : ¬(kv.1 = k) := fun hh => h.1 hh.symm
    simp [alookup, hne, ih h.2]

theorem alookup_foldl_setKey (os : List (String × ParameterObject)) :
    ∀ (bs : List (String × ParameterObject)) (k : String),
      (os.map Prod.fst).Nodup →
      alookup (os.foldl (fun acc kv => setKey acc kv.1 kv.2) bs) k =
        match alookup os k with
        | some v => some v
        | none => alookup bs k := by
  induction os with
  | nil => intro bs k _; rfl
  | cons kv rest ih =>
    intro bs k hnd
    obtain ⟨k0, v0⟩ := kv
    rw [List.foldl_cons]
    rw [List.map_cons] at hnd
    have hnd0 := List.nodup_cons.mp hnd
    by_cases hk : k0 = k
    · subst hk
      rw [ih (setKey bs k0 v0) k0 hnd0.2]
      have hrest : alookup rest k0 = none :=
        alookup_eq_none_of_not_mem rest k0 hnd0.1
      rw [hrest]
      simp [alookup, alookup_setKey_self]
    · rw [ih (setKey bs k0 v0) k hnd0.2]
      have hcons : alookup ((k0, v0) :: rest) k = alookup rest k := by
        simp [alookup, hk]
      rw [hcons]
      cases hr : alookup rest k with
      | some v => rfl
      | none => exact alookup_setKey_other bs k0 k v0 (fun hh => hk hh.symm)

/-- C6: merging a path-item parameter group with the method-level one
keeps every parameter declared at only one level and, on a name
collision, the method-level parameter's fields win (spec §4.E step 2;
`parseV3_1_X` is not in the given tree). -/
theorem mergedParameters_method_wins
    (pathPs methodPs : List (String × ParameterObject)) (k : String)
    (hnd : (methodPs.map Prod.fst).Nodup) :
    (∃ merged,
      mergeParameterGroup (some pathPs) (some methodPs) = some merged ∧
      (∀ v, alookup methodPs k = some v → alookup merged k = some v) ∧
      (alookup methodPs k = none → alookup merged k = alookup pathPs k)) ∧
    (∀ p m : ParametersObject,
      mergeOperationParameters (some p) (some m) =
        some { cookie := mergeParameterGroup p.cookie m.cookie,
               header := mergeParameterGroup p.header m.header,
               path := mergeParameterGroup p.path m.path,
               query := mergeParameterGroup p.query m.query }) := by
  refine ⟨⟨_, rfl, ?_, ?_⟩, fun p m => rfl⟩
  · intro v hv
    rw [alookup_foldl_setKey methodPs pathPs k hnd, hv]
  · intro hv
    rw [alookup_foldl_setKey methodPs pathPs k hnd, hv]

def wC6PathParam : ParameterObject :=
  { name := "version", required := true,
    schema := SchemaObject.mk { type := some SchemaType.string } }

def wC6MethodParam : ParameterObject :=
  { name := "version", required := false,
    schema := SchemaObject.mk { type := some SchemaType.string } }

theorem mergedParameters_method_wins_witness :
    (([("version", wC6MethodParam)].map Prod.fst).Nodup) ∧
    ∃ merged,
      mergeParameterGroup (some [("version", wC6PathParam)])
        (some [("version", wC6MethodParam)]) = some merged ∧
      alookup merged "version" = some wC6MethodParam ∧
      wC6MethodParam.required = false := by
  have H := mergedParameters_method_wins [("version", wC6PathParam)]
    [("version", wC6MethodParam)] "version" (by simp)
  obtain ⟨⟨merged, hm, hwin, _⟩, _⟩ := H
  exact ⟨by simp, merged, hm, hwin wC6MethodParam rfl, rfl⟩

theorem finishExpr_spine (opt : Bool) (schema : SchemaObject) (e : Expr) :
    Expr.spine (finishExpr opt schema e) =
      Expr.spine e ++
      (if schema.accessScope = some AccessScope.read then ["readonly"] else []) ++
      (if opt then ["optional"] else []) ++
      (match schema.dflt with
       | some _ => ["default"]
       | none => []) := by
  unfold finishExpr
  cases hd : schema.dflt <;>
    by_cases hro : schema.accessScope = some AccessScope.read <;>
    cases opt <;>
    simp [hro, Expr.spine]

/-- The schema of the C4 scenario: a described string. -/
def wC4Schema : SchemaObject :=
  SchemaObject.mk { type := some SchemaType.string, description := some "desc" }

def wCfgMeta : PluginConfig := { metadata := true }

def wC4Run : ERes Expr :=
  schemaToZodSchema 5 [] wCfgMeta none none true wC4Schema wEmpty

def wC4V : Expr :=
  match wC4Run with
  | ERes.ok v _ => v
  | _ => Expr.ident ""

def wC4St : EmitState :=
  match wC4Run with
  | ERes.ok _ st => st
  | _ => wEmpty

/-- C4 counterexample: with metadata enabled, emitting an optional
described string produces `z.string().describe(...).optional()` — the
`.describe` call is applied directly after the base expression, before the
`.optional()` modifier, not last as claimed. -/
theorem describe_before_modifiers_counterexample :
    wC4Run = ERes.ok wC4V wC4St ∧
    Expr.spine wC4V = ["string", "describe", "optional"] ∧
    Expr.spine wC4V ≠ ["string", "optional", "describe"] :=
  ⟨rfl, rfl, by decide⟩

/-- C4 (amended): for every completed typed emission, the modifiers are
applied in the order base expression, then `.describe(description)` (when
metadata emission is enabled and the description is nonempty), then
`.readonly()` (when `accessScope` is `read`), then `.optional()` (when the
caller passed `optional`), then `.default(value)` last (when
`schema.default` is set), the default value being routed through the
big-integer coercion exactly when the schema is an `int64` integer. -/
theorem emission_modifier_order (g : IRGraph) (cfg : PluginConfig) (fuel : Nat)
    (opt : Bool) (schema : SchemaObject) (st0 : EmitState) (v : Expr)
    (st' : EmitState)
    (href : schema.ref = none) (hty : schema.type.isSome = true)
    (hok : schemaToZodSchema (fuel + 2) g cfg none none opt schema st0 =
      ERes.ok v st') :
    ∃ anyType base st1,
      schemaTypeToZodSchema fuel g cfg schema st0 = ERes.ok (anyType, base) st1 ∧
      Expr.spine v =
        Expr.spine base ++
        (match schema.description with
         | some d => if cfg.metadata && !(d == "") then ["describe"] else []
         | none => []) ++
        (if schema.accessScope = some AccessScope.read then ["readonly"] else []) ++
        (if opt then ["optional"] else []) ++
        (match schema.dflt with
         | some _ => ["default"]
         | none => []) ∧
      (∀ dv, schema.dflt = some dv →
        ∃ e2, v = Expr.call (Expr.member e2 "default")
          [numberParameter (schema.type = some SchemaType.integer &&
            schema.format = some "int64") dv]) := by
  simp only [schemaToZodSchema, emitEntry_none] at hok
  simp only [schemaToZodSchemaBody] at hok
  rw [href] at hok
  dsimp only at hok
  obtain ⟨t, hty'⟩ := Option.isSome_iff_exists.mp hty
  rw [hty'] at hok
  dsimp only at hok
  cases hT : schemaTypeToZodSchema fuel g cfg schema st0 with
  | ok zs st1 =>
      rw [hT] at hok
      simp only [ERes.andThen] at hok
      injection hok with hv hst
      refine ⟨zs.1, zs.2, st1, rfl, ?_, ?_⟩
      · rw [← hv, finishEmit_fst, finishExpr_spine]
        have hdesc : Expr.spine (match schema.description with
            | some d =>
              if (cfg.metadata && !(d == "")) = true then
                Expr.call (Expr.member zs.2 "describe") [Expr.str d]
              else zs.2
            | none => zs.2) =
            Expr.spine zs.2 ++
            (match schema.description with
             | some d => if cfg.metadata && !(d == "") then ["describe"] else []
             | none => []) := by
          cases hde : schema.description with
          | none => simp
          | some d =>
            dsimp only
            split <;> simp [Expr.spine]
        rw [hdesc]
      · intro dv hdv
        rw [← hv, finishEmit_fst]
        unfold finishExpr
        rw [hdv]
        exact ⟨_, rfl⟩
  | refNotFound rr => rw [hT] at hok; cases hok
  | jsError => rw [hT] at hok; cases hok
  | outOfFuel => rw [hT] at hok; cases hok

theorem emission_modifier_order_witness :
    wC4Schema.ref = none ∧ wC4Schema.type.isSome = true ∧
    Expr.spine wC4V =
      Expr.spine (Expr.call (zMember "string") []) ++ ["describe"] ++ [] ++
        ["optional"] ++ [] := by
  have H := emission_modifier_order [] wCfgMeta 3 true wC4Schema wEmpty wC4V
    wC4St rfl rfl rfl
  exact ⟨rfl, rfl, by decide⟩

/-- C7: when the supplied identifier is newly created, the emitted `const`
declaration carries the explicit type annotation exactly when
`state.hasCircularReference` is `true` at emission time; the annotation is
the any-object schema type (`AnyZodObject`) when the dispatched subroutine
was the object one — which is the only subroutine contributing an
`anyType` — and the generic `ZodTypeAny` otherwise. -/
theorem emitted_decl_annotation (g : IRGraph) (cfg : PluginConfig)
    (fuel : Nat) (r : String) (opt : Bool) (schema : SchemaObject)
    (st0 : EmitState) (v : Expr) (st' : EmitState)
    (hid : alookup st0.idents r = none)
    (hok : schemaToZodSchema (fuel + 1) g cfg (some r) none opt schema st0 =
      ERes.ok v st') :
    (∃ body st1,
      schemaToZodSchemaBody fuel g cfg schema (emitEntry (some r) none st0).2 =
        ERes.ok body st1 ∧
      st'.decls = st1.decls ++
        [{ name := deriveIdentifierName st0.nameCase st0.nameTransformer r
             (st0.idents.map Prod.snd),
           expr := finishExpr opt body.1 body.2.2,
           typeName := if st1.hasCircularReference then
             some (body.2.1.getD "ZodTypeAny") else none }]) ∧
    (∀ f2 s2 st2 v2 st2', s2.type = some SchemaType.object →
      schemaTypeToZodSchema f2 g cfg s2 st2 = ERes.ok v2 st2' →
      v2.1 = some "AnyZodObject") := by
  constructor
  · simp only [schemaToZodSchema] at hok
    cases hB : schemaToZodSchemaBody fuel g cfg schema
        (emitEntry (some r) none st0).2 with
    | ok body st1 =>
      rw [hB] at hok
      simp only [ERes.andThen] at hok
      injection hok with hv hst
      refine ⟨body, st1, rfl, ?_⟩
      rw [← hst]
      rw [show (emitEntry (some r) none st0).1 =
          some ⟨deriveIdentifierName st0.nameCase st0.nameTransformer r
            (st0.idents.map Prod.snd), true⟩ from by
        rw [emitEntry_some_fresh st0 r hid]]
      rw [finishEmit_snd]
      dsimp only
      rw [finishDecls_created _ _ _ _
        (deriveIdentifierName_spec st0.nameCase st0.nameTransformer r
          (st0.idents.map Prod.snd)).2 rfl]
    | refNotFound rr => rw [hB] at hok; cases hok
    | jsError => rw [hB] at hok; cases hok
    | outOfFuel => rw [hB] at hok; cases hok
  · intro f2 s2 st2 v2 st2' hty2 hok2
    cases f2 with
    | zero => simp only [schemaTypeToZodSchema] at hok2; cases hok2
    | succ f3 =>
      simp only [schemaTypeToZodSchema] at hok2
      rw [hty2] at hok2
      dsimp only at hok2
      cases f3 with
      | zero => simp only [objectTypeToZodSchema] at hok2; cases hok2
      | succ f4 =>
        simp only [objectTypeToZodSchema] at hok2
        cases hP : emitProperties f4 g cfg (s2.required.getD []) s2.properties st2 with
        | ok props stp =>
          rw [hP] at hok2
          simp only [ERes.andThen] at hok2
          injection hok2 with hv2 hst2
          rw [← hv2]
        | refNotFound rr => rw [hP] at hok2; cases hok2
        | jsError => rw [hP] at hok2; cases hok2
        | outOfFuel => rw [hP] at hok2; cases hok2

theorem emitted_decl_annotation_witness :
    alookup wEmpty.idents "#/components/schemas/A" = none ∧
    wCycleSt.decls.map Decl.typeName =
      [some "AnyZodObject", some "AnyZodObject"] := by
  have H := emitted_decl_annotation wGraphAB wCfg 999999 "#/components/schemas/A"
    false wSchemaA wEmpty wCycleV wCycleSt rfl rfl
  exact ⟨rfl, rfl⟩

/-- C9: `schemaToZodSchema` restores the circular-reference tracker: a
supplied `$ref` is put on `state.circularReferenceTracker` only for the
duration of the call, so after any completed emission (from a well-formed
state whose supplied `$ref` is not already being tracked) the tracker
holds exactly the elements it held on entry. -/
theorem schemaToZodSchema_tracker_restored (g : IRGraph) (cfg : PluginConfig)
    (fuel : Nat) (refOpt : Option String) (opt : Bool) (schema : SchemaObject)
    (st : EmitState) (v : Expr) (st' : EmitState)
    (hPre : PreState st)
    (hTr : ∀ r, refOpt = some r → r ∉ st.circularReferenceTracker)
    (hok : schemaToZodSchema fuel g cfg refOpt none opt schema st = ERes.ok v st') :
    st'.circularReferenceTracker = st.circularReferenceTracker :=
  ((emitInvariants g cfg fuel).1 refOpt opt schema st v st' hPre hTr hok).1.2.1

theorem schemaToZodSchema_tracker_restored_witness :
    PreState wEmpty ∧
    (∀ r, (some "#/components/schemas/A" : Option String) = some r →
      r ∉ wEmpty.circularReferenceTracker) ∧
    wCycleSt.circularReferenceTracker = wEmpty.circularReferenceTracker :=
  ⟨wEmptyPre, fun r _ hm => absurd hm (List.not_mem_nil r),
    schemaToZodSchema_tracker_restored wGraphAB wCfg 1000000
      (some "#/components/schemas/A") false wSchemaA wEmpty wCycleV wCycleSt
      wEmptyPre (fun r _ hm => absurd hm (List.not_mem_nil r)) rfl⟩

end OpenapiTs